import Mathlib

/-!
Verification of the vantum-frontend client core against its specification.

The definitions below are shallow embeddings of the TypeScript sources:
JavaScript Map objects become insertion-ordered association lists, promises
become recorded settlement events, mutable byte buffers become addresses
into an explicit heap, and the single-threaded event loop becomes an
explicit operation sequence consumed by a step function.  Each definition
names the source file and lines it embeds.
-/

namespace Vantum

/-! ## Handler registry (src/unnamed/part_009, class HandlerRegistry)

A handler is modelled by an identifying tag together with the one
observable behaviour routeMessage depends on: whether invoking it throws.
-/

/-- Boolean test that string s ends with string p, written over the
character lists so that it evaluates by kernel reduction; it agrees with
the JavaScript endsWith used at part_009 lines 62 and 82. -/
def strEndsWith (s p : String) : Bool :=
  p.data == s.data.drop (s.data.length - p.data.length)

/-- Removal of the last n characters of a string; strDropRight s 6 models
the regex replacement at part_009 line 64, which strips a final ".error"
(it is only applied under a strEndsWith guard). -/
def strDropRight (s : String) (n : Nat) : String :=
  String.mk (s.data.take (s.data.length - n))

structure Handler where
  hid : Nat
  throws : Bool
  deriving DecidableEq, Repr

/-- Lookup in a JavaScript Map modelled as an insertion-ordered
association list (Map.get). -/
def mapGet (m : List (String × Handler)) (k : String) : Option Handler :=
  (m.find? (fun p => p.1 == k)).map (fun p => p.2)

/-- HandlerRegistry state: the primary map `handlers` and the
`errorHandlers` map (part_009 lines 20-21). -/
structure HandlerRegistry where
  handlers : List (String × Handler)
  errorHandlers : List (String × Handler)
  deriving DecidableEq, Repr

/-- Embeds HandlerRegistry.getErrorHandler (part_009 lines 55-69):
exact match in the error map first, then, when the event type ends in
".error", the error map under the base event type. -/
def getErrorHandler (r : HandlerRegistry) (eventType : String) : Option Handler :=
  match mapGet r.errorHandlers eventType with
  | some h => some h
  | none =>
    if strEndsWith eventType ".error" then
      mapGet r.errorHandlers (strDropRight eventType 6)
    else
      none

/-- Embeds HandlerRegistry.routeMessage (part_009 lines 74-111).
Returns the handler that was invoked (if any) and the handled flag.
The try/catch wraps every branch: a throwing handler is caught, logged,
and the function returns false. -/
def routeMessage (r : HandlerRegistry) (eventType : String) : Option Handler × Bool :=
  if strEndsWith eventType ".error" then
    match getErrorHandler r eventType with
    | some h => (some h, !h.throws)
    | none =>
      match mapGet r.handlers "error" with
      | some h => (some h, !h.throws)
      | none =>
        match mapGet r.handlers eventType with
        | some h => (some h, !h.throws)
        | none => (none, false)
  else
    match mapGet r.handlers eventType with
    | some h => (some h, !h.throws)
    | none => (none, false)

/-- The lookup chain the code actually performs for an event type ending
in ".error": error map under the full type, error map under the stripped
type, primary map under the wildcard key, primary map under the full
type. -/
def errorLookupChain (r : HandlerRegistry) (eventType : String) : Option Handler :=
  (mapGet r.errorHandlers eventType).orElse (fun _ =>
    (mapGet r.errorHandlers (strDropRight eventType 6)).orElse (fun _ =>
      (mapGet r.handlers "error").orElse (fun _ =>
        mapGet r.handlers eventType)))

/-- Registry used to refute the lookup order stated by claim C5: the
primary map holds a handler under the full error event type, while the
error map holds a different handler under the base event type. -/
def regPrimaryVsError : HandlerRegistry :=
  { handlers := [("x.error", { hid := 1, throws := false })]
    errorHandlers := [("x", { hid := 2, throws := false })] }

/-- Registry whose only handler throws, used for claim C6. -/
def regThrowing : HandlerRegistry :=
  { handlers := [("evt", { hid := 1, throws := true })]
    errorHandlers := [] }

/-- C5 counterexample: the claim says lookup for "x.error" consults the
primary map under the full event type first, so with a primary handler
registered under "x.error" that handler would be invoked.  The code
instead consults the error registry first and invokes the handler
registered there under the base type "x". -/
theorem routeMessage_primary_not_first :
    mapGet regPrimaryVsError.handlers "x.error" = some { hid := 1, throws := false } ∧
    (routeMessage regPrimaryVsError "x.error").1 = some { hid := 2, throws := false } ∧
    ({ hid := 2, throws := false } : Handler) ≠ { hid := 1, throws := false } := by
  refine ⟨by decide, by decide, by decide⟩

/-- C5 amended: for an event type ending in ".error" the handler invoked
by routeMessage is the first hit in the chain error-registry full type,
error-registry stripped type, primary wildcard "error", primary full
type; for any other event type only the primary map is consulted. -/
theorem routeMessage_lookup_order (r : HandlerRegistry) (eventType : String) :
    (routeMessage r eventType).1 =
      if strEndsWith eventType ".error" then errorLookupChain r eventType
      else mapGet r.handlers eventType := by
  unfold routeMessage errorLookupChain getErrorHandler
  cases h : strEndsWith eventType ".error"
  · simp only [Bool.false_eq_true, if_false]
    cases mapGet r.handlers eventType <;> rfl
  · simp only [if_true, h]
    cases mapGet r.errorHandlers eventType
    · cases mapGet r.errorHandlers (strDropRight eventType 6)
      · cases mapGet r.handlers "error"
        · cases mapGet r.handlers eventType <;> rfl
        · rfl
      · rfl
    · rfl

/-- C6 counterexample: a handler that throws is caught and logged, but
routeMessage then returns false, not true as the claim states. -/
theorem routeMessage_throw_returns_false :
    (routeMessage regThrowing "evt").1 = some { hid := 1, throws := true } ∧
    (routeMessage regThrowing "evt").2 = false := by
  refine ⟨by decide, by decide⟩

/-- C6 amended: routeMessage never propagates a handler exception (it is
a total function of the registry); the handled flag is true exactly when
some handler was invoked and did not throw, and in particular it is
false when the invoked handler throws. -/
theorem routeMessage_handled_iff_no_throw (r : HandlerRegistry) (eventType : String) :
    (routeMessage r eventType).2 =
      ((routeMessage r eventType).1.map (fun h => !h.throws)).getD false := by
  unfold routeMessage getErrorHandler
  cases h : strEndsWith eventType ".error"
  · simp only [Bool.false_eq_true, if_false]
    cases mapGet r.handlers eventType <;> rfl
  · simp only [if_true]
    cases mapGet r.errorHandlers eventType
    · cases mapGet r.errorHandlers (strDropRight eventType 6)
      · cases mapGet r.handlers "error"
        · cases mapGet r.handlers eventType <;> rfl
        · rfl
      · rfl
    · rfl

/-! ## PCM sample conversions (claim C10)

Playback normalization embeds src/lib/audio/playback.ts lines 183-190;
the capture conversion embeds src/lib/audio/capture.ts lines 145-155.
Both pipelines only divide or multiply by the power of two 32768, clamp,
and round; every such operation on an Int16-ranged value is exact in
IEEE binary32 (the values need at most 16 bits of significand), so the
rational-number model below computes the same values as the Float32Array
code it embeds. -/

/-- Embeds the playback normalization loop (playback.ts lines 183-190):
divide the signed 16-bit sample by 32768.0, then clamp to the interval
from -1.0 to 1.0. -/
def playbackNormalize (v : Int) : ℚ :=
  max (-1) (min 1 ((v : ℚ) / 32768))

/-- JavaScript Math.round: round half toward positive infinity. -/
def jsRound (q : ℚ) : Int := ⌊q + 1/2⌋

/-- Storing an integer into an Int16Array slot wraps it modulo 2^16 into
the signed 16-bit range (capture.ts line 152 stores before clamping). -/
def toInt16 (n : Int) : Int := (n + 32768) % 65536 - 32768

/-- Embeds the capture PCM conversion (capture.ts lines 145-155): clamp
the float sample to the interval from -1 to 1, multiply by 32768.0,
round, store into the Int16Array slot (which wraps modulo 2^16), then
clamp the stored value to the signed 16-bit range. -/
def captureConvert (s : ℚ) : Int :=
  let c := max (-1) (min 1 s)
  let r := toInt16 (jsRound (c * 32768))
  max (-32768) (min 32767 r)

/-- C10: for every signed 16-bit sample, the playback normalization
followed by the capture conversion is the identity. -/
theorem pcm_roundtrip (v : Int) (h1 : -32768 ≤ v) (h2 : v ≤ 32767) :
    captureConvert (playbackNormalize v) = v := by
  have h32 : (0 : ℚ) < 32768 := by norm_num
  have hle : ((v : ℚ) / 32768) ≤ 1 := by
    rw [div_le_one h32]
    exact_mod_cast le_trans h2 (by norm_num)
  have hge : (-1 : ℚ) ≤ (v : ℚ) / 32768 := by
    rw [le_div_iff₀ h32]
    have hv : (-32768 : ℚ) ≤ (v : ℚ) := by exact_mod_cast h1
    linarith
  have hnorm : playbackNormalize v = (v : ℚ) / 32768 := by
    unfold playbackNormalize
    rw [min_eq_right hle, max_eq_right hge]
  have hmul : ((v : ℚ) / 32768) * 32768 = (v : ℚ) := by
    field_simp
  have hround : jsRound (v : ℚ) = v := by
    unfold jsRound
    rw [Int.floor_eq_iff]
    constructor
    · linarith
    · linarith
  have hwrap : toInt16 v = v := by
    unfold toInt16
    have hmod : (v + 32768) % 65536 = v + 32768 :=
      Int.emod_eq_of_lt (by omega) (by omega)
    omega
  unfold captureConvert
  rw [hnorm]
  simp only [hnorm, hmul]
  rw [min_eq_right hle, max_eq_right hge, hmul, hround, hwrap]
  rw [min_eq_right (by exact_mod_cast h2), max_eq_right (by exact_mod_cast h1)]

/-- Witness for pcm_roundtrip at the extreme sample -32768. -/
theorem pcm_roundtrip_witness :
    (-32768 : Int) ≤ -32768 ∧ (-32768 : Int) ≤ 32767 ∧
      captureConvert (playbackNormalize (-32768)) = -32768 :=
  ⟨by norm_num, by norm_num, pcm_roundtrip (-32768) (by norm_num) (by norm_num)⟩

/-! ## Request tracker (src/lib/websocket/manager/request-tracker.ts)

Each promise returned by trackRequest is identified by a serial number
allocated at the call; a pending map entry carries the serials of every
future attached to it (the original, plus any duplicate-eventId callers
chained onto it by lines 68-88).  Settling an entry emits one settlement
event per attached serial.  JavaScript timers are modelled by explicit
operations: fireTimeout is the per-request setTimeout callback of lines
109-116, sweep is the setInterval callback of lines 37-39. -/

structure PendingEntry where
  eventId : String
  eventType : String
  timestamp : Nat
  timeoutMs : Nat
  serials : List Nat
  deriving DecidableEq, Repr

/-- The ways a tracked future can settle in the source: resolve on a
matched ack (line 139), reject on the per-request timer (line 114),
reject on cancelRequest (line 162), reject on clear (line 173), reject
on capacity eviction (line 97), reject on the periodic sweep (line 52). -/
inductive Outcome
  | ack
  | timeout
  | cancelled
  | cleared
  | limit
  | cleanup
  deriving DecidableEq, Repr

/-- The five settlement outcomes listed by claim C3: matched-ack,
per-request timeout, cancel, clear/teardown, tracker-limit. -/
def claimFiveOutcomes (o : Outcome) : Bool :=
  match o with
  | Outcome.cleanup => false
  | _ => true

structure Tracker where
  pending : List PendingEntry
  defaultTimeout : Nat
  maxPending : Nat
  nextSerial : Nat
  deriving DecidableEq, Repr

/-- Map.get on the pending map (request-tracker.ts line 68 etc.). -/
def findEntry (ps : List PendingEntry) (id : String) : Option PendingEntry :=
  ps.find? (fun e => e.eventId == id)

/-- Map.delete on the pending map. -/
def removeId (ps : List PendingEntry) (id : String) : List PendingEntry :=
  ps.filter (fun e => !(e.eventId == id))

/-- Settlement events for one entry: every attached future settles with
the same outcome. -/
def settle (e : PendingEntry) (o : Outcome) : List (Nat × Outcome) :=
  e.serials.map (fun s => (s, o))

/-- The eviction choice of request-tracker.ts lines 93-94: the stable
sort by timestamp followed by taking index 0 selects the first entry in
insertion order among those of minimal timestamp. -/
def oldestEntry : List PendingEntry → Option PendingEntry
  | [] => none
  | e :: es =>
    match oldestEntry es with
    | none => some e
    | some f => if f.timestamp < e.timestamp then some f else some e

/-- Chaining a duplicate caller onto the existing entry for an eventId
(request-tracker.ts lines 68-88): the new future settles exactly when
the original entry settles. -/
def attachDup (ps : List PendingEntry) (id : String) (n : Nat) : List PendingEntry :=
  ps.map (fun e => if e.eventId == id then { e with serials := e.serials ++ [n] } else e)

/-- Embeds RequestTracker.trackRequest (lines 62-121).  A duplicate
eventId chains onto the existing entry; otherwise, when the map is at or
over capacity, the oldest entry is rejected with the tracker-limit error
and removed before the new entry is inserted. -/
def trackStep (t : Tracker) (now : Nat) (id ty : String) (tm : Nat) :
    Tracker × List (Nat × Outcome) :=
  match findEntry t.pending id with
  | some _ =>
    ({ t with pending := attachDup t.pending id t.nextSerial
              nextSerial := t.nextSerial + 1 }, [])
  | none =>
    let evictPair :=
      if t.maxPending ≤ t.pending.length then
        match oldestEntry t.pending with
        | some old => (removeId t.pending old.eventId, settle old Outcome.limit)
        | none => (t.pending, [])
      else (t.pending, [])
    ({ t with
        pending := evictPair.1 ++
          [{ eventId := id, eventType := ty, timestamp := now,
             timeoutMs := tm, serials := [t.nextSerial] }]
        nextSerial := t.nextSerial + 1 },
     evictPair.2)

/-- Embeds RequestTracker.matchAck (lines 126-142): clear the timer,
delete the entry, then resolve. -/
def matchAckStep (t : Tracker) (id : String) : Tracker × List (Nat × Outcome) :=
  match findEntry t.pending id with
  | some e => ({ t with pending := removeId t.pending id }, settle e Outcome.ack)
  | none => (t, [])

/-- Embeds the per-request setTimeout callback (lines 109-116 together
with handleTimeout at lines 147-153): reject only when the entry is
still pending.  The callback rejects through the closure-captured
executor reject of the ORIGINAL promise, never through the mutated
request.reject field that the duplicate-id chaining of lines 68-88
wraps; so only the first attached future settles, and any duplicate
futures chained onto the entry are removed without ever settling. -/
def timeoutStep (t : Tracker) (id : String) : Tracker × List (Nat × Outcome) :=
  match findEntry t.pending id with
  | some e =>
    ({ t with pending := removeId t.pending id },
     (e.serials.take 1).map (fun s => (s, Outcome.timeout)))
  | none => (t, [])

/-- Embeds RequestTracker.cancelRequest (lines 158-165). -/
def cancelStep (t : Tracker) (id : String) : Tracker × List (Nat × Outcome) :=
  match findEntry t.pending id with
  | some e => ({ t with pending := removeId t.pending id }, settle e Outcome.cancelled)
  | none => (t, [])

/-- Embeds RequestTracker.clear (lines 170-176): reject every pending
entry with the tracker-cleared error and empty the map. -/
def clearStep (t : Tracker) : Tracker × List (Nat × Outcome) :=
  ({ t with pending := [] },
   (t.pending.map (fun e => settle e Outcome.cleared)).flatten)

/-- Embeds the loop body of cleanupOldRequests (lines 45-56): walk the
map, rejecting and deleting every entry whose age exceeds twice the
tracker default timeout.  The per-entry timeoutMs plays no part. -/
def sweepList (dflt now : Nat) : List PendingEntry → List PendingEntry × List (Nat × Outcome)
  | [] => ([], [])
  | e :: es =>
    let rest := sweepList dflt now es
    if 2 * dflt < now - e.timestamp then
      (rest.1, settle e Outcome.cleanup ++ rest.2)
    else
      (e :: rest.1, rest.2)

/-- Embeds cleanupOldRequests as invoked by the periodic cleanup timer
(lines 37-39 and 45-56). -/
def sweepStep (t : Tracker) (now : Nat) : Tracker × List (Nat × Outcome) :=
  let r := sweepList t.defaultTimeout now t.pending
  ({ t with pending := r.1 }, r.2)

/-- One operation against the tracker: an API call or a timer firing. -/
inductive TrackerOp
  | track (now : Nat) (eventId eventType : String) (timeoutMs : Nat)
  | ackMatch (eventId : String)
  | fireTimeout (eventId : String)
  | cancel (eventId : String)
  | clearAll
  | sweep (now : Nat)
  deriving DecidableEq, Repr

def trackerStep (t : Tracker) : TrackerOp → Tracker × List (Nat × Outcome)
  | TrackerOp.track now id ty tm => trackStep t now id ty tm
  | TrackerOp.ackMatch id => matchAckStep t id
  | TrackerOp.fireTimeout id => timeoutStep t id
  | TrackerOp.cancel id => cancelStep t id
  | TrackerOp.clearAll => clearStep t
  | TrackerOp.sweep now => sweepStep t now

/-- Run a sequence of operations, accumulating settlement events. -/
def runTracker (t : Tracker) : List TrackerOp → Tracker × List (Nat × Outcome)
  | [] => (t, [])
  | op :: ops =>
    let r := trackerStep t op
    let r' := runTracker r.1 ops
    (r'.1, r.2 ++ r'.2)

/-- A fresh tracker; the configured defaults are defaultTimeout 30000 ms
and maxPending 100 (websocket-config, part_008). -/
def initTracker (dflt cap : Nat) : Tracker :=
  { pending := [], defaultTimeout := dflt, maxPending := cap, nextSerial := 0 }

/-- Serials of every future settled in an event list. -/
def settledSerials (evs : List (Nat × Outcome)) : List Nat :=
  evs.map (fun ev => ev.1)

/-- Serials of every future still attached to a pending entry. -/
def pendingSerials (t : Tracker) : List Nat :=
  (t.pending.map (fun e => e.serials)).flatten

/-! Tracker lemmas -/

def serialsM (ps : List PendingEntry) : Multiset Nat :=
  (((ps.map (fun e => e.serials)).flatten : List Nat) : Multiset Nat)

theorem serialsM_nil : serialsM [] = 0 := rfl

theorem serialsM_cons (e : PendingEntry) (ps : List PendingEntry) :
    serialsM (e :: ps) = ↑e.serials + serialsM ps := by
  simp [serialsM]

theorem serialsM_append (a b : List PendingEntry) :
    serialsM (a ++ b) = serialsM a + serialsM b := by
  simp [serialsM]

theorem settledSerials_append (a b : List (Nat × Outcome)) :
    settledSerials (a ++ b) = settledSerials a ++ settledSerials b := by
  simp [settledSerials]

theorem settledSerials_settle (e : PendingEntry) (o : Outcome) :
    settledSerials (settle e o) = e.serials := by
  simp [settledSerials, settle]
  exact List.map_id e.serials

theorem findEntry_mem {ps : List PendingEntry} {id : String} {e : PendingEntry}
    (h : findEntry ps id = some e) : e ∈ ps :=
  List.mem_of_find?_eq_some h

theorem findEntry_beq {ps : List PendingEntry} {id : String} {e : PendingEntry}
    (h : findEntry ps id = some e) : e.eventId = id := by
  have := List.find?_some h
  simpa using this

theorem findEntry_none_all {ps : List PendingEntry} {id : String}
    (h : findEntry ps id = none) : ∀ e ∈ ps, ¬ e.eventId = id := by
  intro e he
  have := List.find?_eq_none.1 h e he
  simpa using this

theorem attachDup_id_map (ps : List PendingEntry) (id : String) (n : Nat) :
    (attachDup ps id n).map (fun e => e.eventId) = ps.map (fun e => e.eventId) := by
  induction ps with
  | nil => rfl
  | cons h t ih =>
    simp only [attachDup, List.map_cons] at ih ⊢
    rw [ih]
    by_cases hb : h.eventId = id
    · simp [hb]
    · simp [hb]

theorem attachDup_not_mem (ps : List PendingEntry) (id : String) (n : Nat)
    (h : ∀ e ∈ ps, ¬ e.eventId = id) : attachDup ps id n = ps := by
  induction ps with
  | nil => rfl
  | cons e t ih =>
    have he : ¬ e.eventId = id := h e (by simp)
    simp only [attachDup, List.map_cons]
    rw [if_neg (by simpa using he)]
    have := ih (fun x hx => h x (by simp [hx]))
    simpa [attachDup] using this

theorem attachDup_serialsM (ps : List PendingEntry) (id : String) (n : Nat)
    (hnd : (ps.map (fun e => e.eventId)).Nodup)
    (hf : (findEntry ps id).isSome) :
    serialsM (attachDup ps id n) = serialsM ps + {n} := by
  induction ps with
  | nil => simp [findEntry] at hf
  | cons e t ih =>
    rw [List.map_cons, List.nodup_cons] at hnd
    by_cases hb : e.eventId = id
    · have hnotin : ∀ x ∈ t, ¬ x.eventId = id := by
        intro x hx hxe
        apply hnd.1
        have hm : x.eventId ∈ t.map (fun y => y.eventId) :=
          List.mem_map_of_mem _ hx
        rw [hxe, ← hb] at hm
        exact hm
      have hcons : attachDup (e :: t) id n =
          { e with serials := e.serials ++ [n] } :: attachDup t id n := by
        simp [attachDup, hb]
      rw [hcons, attachDup_not_mem t id n hnotin]
      rw [serialsM_cons, serialsM_cons]
      have hser : ({ e with serials := e.serials ++ [n] } : PendingEntry).serials
          = e.serials ++ [n] := rfl
      rw [hser]
      have hco : ((e.serials ++ [n] : List Nat) : Multiset Nat)
          = ↑e.serials + ({n} : Multiset Nat) := rfl
      rw [hco]
      abel
    · have hcons : attachDup (e :: t) id n = e :: attachDup t id n := by
        simp [attachDup, hb]
      have hstep : findEntry (e :: t) id = findEntry t id := by
        unfold findEntry
        rw [List.find?_cons_of_neg _ (by simp [hb])]
      rw [hstep] at hf
      rw [hcons, serialsM_cons, serialsM_cons, ih hnd.2 hf]
      abel

theorem removeId_sublist (ps : List PendingEntry) (id : String) :
    List.Sublist (removeId ps id) ps :=
  List.filter_sublist ps

theorem removeId_not_mem (ps : List PendingEntry) (id : String)
    (h : ∀ e ∈ ps, ¬ e.eventId = id) : removeId ps id = ps := by
  apply List.filter_eq_self.2
  intro e he
  simp [h e he]

theorem removeId_serialsM (ps : List PendingEntry) (id : String) (e : PendingEntry)
    (hnd : (ps.map (fun x => x.eventId)).Nodup)
    (hf : findEntry ps id = some e) :
    serialsM (removeId ps id) + ↑e.serials = serialsM ps := by
  induction ps with
  | nil => simp [findEntry] at hf
  | cons x t ih =>
    rw [List.map_cons, List.nodup_cons] at hnd
    by_cases hb : x.eventId = id
    · have hx : e = x := by
        unfold findEntry at hf
        rw [List.find?_cons_of_pos _ (by simp [hb])] at hf
        exact (Option.some_inj.1 hf).symm
      have hnotin : ∀ y ∈ t, ¬ y.eventId = id := by
        intro y hy hye
        apply hnd.1
        have hm : y.eventId ∈ t.map (fun z => z.eventId) :=
          List.mem_map_of_mem _ hy
        rw [hye, ← hb] at hm
        exact hm
      have hcons : removeId (x :: t) id = removeId t id := by
        unfold removeId
        rw [List.filter_cons_of_neg (by simp [hb])]
      rw [hcons, removeId_not_mem t id hnotin, hx, serialsM_cons]
      abel
    · have hcons : removeId (x :: t) id = x :: removeId t id := by
        unfold removeId
        rw [List.filter_cons_of_pos (by simp [hb])]
      have hstep : findEntry (x :: t) id = findEntry t id := by
        unfold findEntry
        rw [List.find?_cons_of_neg _ (by simp [hb])]
      rw [hstep] at hf
      rw [hcons, serialsM_cons, serialsM_cons, ← ih hnd.2 hf]
      abel

theorem oldestEntry_isSome {ps : List PendingEntry} (h : ps ≠ []) :
    (oldestEntry ps).isSome := by
  cases ps with
  | nil => exact absurd rfl h
  | cons x t =>
    unfold oldestEntry
    split
    · rfl
    · split <;> rfl

theorem oldestEntry_mem {ps : List PendingEntry} {e : PendingEntry}
    (h : oldestEntry ps = some e) : e ∈ ps := by
  induction ps with
  | nil => simp [oldestEntry] at h
  | cons x t ih =>
    unfold oldestEntry at h
    split at h
    · simp at h
      simp [h]
    · rename_i f hrec
      split at h
      · have hef : f = e := Option.some_inj.1 h
        exact List.mem_cons_of_mem x (ih (hef ▸ hrec))
      · simp at h
        simp [h]

theorem oldestEntry_min {ps : List PendingEntry} {e : PendingEntry}
    (h : oldestEntry ps = some e) : ∀ x ∈ ps, e.timestamp ≤ x.timestamp := by
  induction ps generalizing e with
  | nil => simp [oldestEntry] at h
  | cons x t ih =>
    unfold oldestEntry at h
    split at h
    · rename_i hrec
      have ht : t = [] := by
        by_contra hne
        have := oldestEntry_isSome hne
        rw [hrec] at this
        exact absurd this (by simp)
      simp at h
      subst ht
      intro y hy
      simp at hy
      simp [hy, ← h]
    · rename_i f hrec
      split at h
      · rename_i hc
        have hef : f = e := Option.some_inj.1 h
        intro y hy
        rcases List.mem_cons.1 hy with hyx | hyt
        · rw [← hef, hyx]
          exact le_of_lt hc
        · exact ih (hef ▸ hrec) y hyt
      · rename_i hc
        have hex : x = e := Option.some_inj.1 h
        intro y hy
        rcases List.mem_cons.1 hy with hyx | hyt
        · rw [← hex, hyx]
        · calc e.timestamp = x.timestamp := by rw [hex]
            _ ≤ f.timestamp := le_of_not_lt hc
            _ ≤ y.timestamp := ih hrec y hyt

theorem coeAppend (a b : List Nat) :
    ((a ++ b : List Nat) : Multiset Nat) = ↑a + ↑b := rfl

theorem findEntry_self (ps : List PendingEntry) (e : PendingEntry)
    (hnd : (ps.map (fun x => x.eventId)).Nodup) (hm : e ∈ ps) :
    findEntry ps e.eventId = some e := by
  induction ps with
  | nil => simp at hm
  | cons x t ih =>
    rw [List.map_cons, List.nodup_cons] at hnd
    rcases List.mem_cons.1 hm with hex | het
    · unfold findEntry
      rw [hex]
      rw [List.find?_cons_of_pos _ (by simp)]
    · have hne : ¬ x.eventId = e.eventId := by
        intro hid
        apply hnd.1
        have : e.eventId ∈ t.map (fun y => y.eventId) := List.mem_map_of_mem _ het
        rw [← hid] at this
        exact this
      unfold findEntry
      rw [List.find?_cons_of_neg _ (by simpa using hne)]
      exact ih hnd.2 het

theorem settledSerials_clearEvents (ps : List PendingEntry) (o : Outcome) :
    (↑(settledSerials ((ps.map (fun e => settle e o)).flatten)) : Multiset Nat)
      = serialsM ps := by
  induction ps with
  | nil => rfl
  | cons e t ih =>
    rw [List.map_cons, List.flatten_cons, settledSerials_append, coeAppend,
      settledSerials_settle, serialsM_cons, ih]

theorem sweepList_serialsM (dflt now : Nat) (ps : List PendingEntry) :
    serialsM (sweepList dflt now ps).1
      + ↑(settledSerials (sweepList dflt now ps).2) = serialsM ps := by
  induction ps with
  | nil => rfl
  | cons e t ih =>
    unfold sweepList
    by_cases hc : 2 * dflt < now - e.timestamp
    · rw [if_pos hc]
      simp only []
      rw [settledSerials_append, coeAppend, settledSerials_settle, serialsM_cons, ← ih]
      abel
    · rw [if_neg hc]
      simp only []
      rw [serialsM_cons, serialsM_cons, ← ih]
      abel

theorem sweepList_sublist (dflt now : Nat) (ps : List PendingEntry) :
    List.Sublist (sweepList dflt now ps).1 ps := by
  induction ps with
  | nil => simp [sweepList]
  | cons e t ih =>
    unfold sweepList
    by_cases hc : 2 * dflt < now - e.timestamp
    · rw [if_pos hc]
      exact List.Sublist.cons e ih
    · rw [if_neg hc]
      exact List.Sublist.cons₂ e ih

theorem sweepList_keep_filter (dflt now : Nat) (ps : List PendingEntry) :
    (sweepList dflt now ps).1
      = ps.filter (fun e => !decide (2 * dflt < now - e.timestamp)) := by
  induction ps with
  | nil => rfl
  | cons e t ih =>
    unfold sweepList
    by_cases hc : 2 * dflt < now - e.timestamp
    · rw [if_pos hc]
      simp only []
      rw [List.filter_cons_of_neg (by simp [hc]), ih]
    · rw [if_neg hc]
      simp only []
      rw [List.filter_cons_of_pos (by simp [hc]), ih]

theorem sweepList_events_filter (dflt now : Nat) (ps : List PendingEntry) :
    (sweepList dflt now ps).2
      = ((ps.filter (fun e => decide (2 * dflt < now - e.timestamp))).map
          (fun e => settle e Outcome.cleanup)).flatten := by
  induction ps with
  | nil => rfl
  | cons e t ih =>
    unfold sweepList
    by_cases hc : 2 * dflt < now - e.timestamp
    · rw [if_pos hc]
      simp only []
      rw [List.filter_cons_of_pos (by simp [hc]), List.map_cons, List.flatten_cons, ih]
    · rw [if_neg hc]
      simp only []
      rw [List.filter_cons_of_neg (by simp [hc]), ih]

/-- Tracker well-formedness relative to the emitted settlement events:
pending eventIds are distinct, and the serials attached to pending
entries together with the settled serials form a sub-multiset of the
allocated range.  Equality does not hold: the per-request timer orphans
the duplicate futures chained onto a timed-out entry (see timeoutStep),
so some allocated serials may be neither pending nor settled. -/
def TrackerWF (t : Tracker) (em : List (Nat × Outcome)) : Prop :=
  (t.pending.map (fun e => e.eventId)).Nodup ∧
  serialsM t.pending + ↑(settledSerials em) ≤ Multiset.range t.nextSerial

theorem rangeSucc (n : Nat) : Multiset.range (n + 1) = Multiset.range n + {n} := by
  rw [Multiset.range_succ, add_comm]
  rfl

theorem settledSerials_mapOutcome (l : List Nat) (o : Outcome) :
    settledSerials (l.map (fun s => (s, o))) = l := by
  simp [settledSerials]
  exact List.map_id l

theorem take_coe_le (l : List Nat) (n : Nat) :
    ((l.take n : List Nat) : Multiset Nat) ≤ (↑l : Multiset Nat) :=
  Multiset.coe_le.2 (List.take_sublist n l).subperm

theorem removeSettle_pending_WF (t : Tracker) (em : List (Nat × Outcome))
    (id : String) (e : PendingEntry) (o : Outcome)
    (h : TrackerWF t em) (hf : findEntry t.pending id = some e) :
    ((removeId t.pending id).map (fun x => x.eventId)).Nodup ∧
    serialsM (removeId t.pending id)
        + ↑(settledSerials (em ++ settle e o)) ≤ Multiset.range t.nextSerial := by
  obtain ⟨hnd, hle⟩ := h
  constructor
  · exact hnd.sublist (List.Sublist.map _ (removeId_sublist t.pending id))
  · rw [settledSerials_append, settledSerials_settle, coeAppend]
    have hrm := removeId_serialsM t.pending id e hnd hf
    calc serialsM (removeId t.pending id) + (↑(settledSerials em) + ↑e.serials)
        = (serialsM (removeId t.pending id) + ↑e.serials) + ↑(settledSerials em) := by
          abel
      _ = serialsM t.pending + ↑(settledSerials em) := by rw [hrm]
      _ ≤ Multiset.range t.nextSerial := hle

theorem matchAckStep_WF (t : Tracker) (em : List (Nat × Outcome)) (id : String)
    (h : TrackerWF t em) :
    TrackerWF (matchAckStep t id).1 (em ++ (matchAckStep t id).2) := by
  unfold matchAckStep
  cases hf : findEntry t.pending id with
  | none => simpa using h
  | some e =>
    have := removeSettle_pending_WF t em id e Outcome.ack h hf
    exact ⟨this.1, this.2⟩

theorem timeoutStep_WF (t : Tracker) (em : List (Nat × Outcome)) (id : String)
    (h : TrackerWF t em) :
    TrackerWF (timeoutStep t id).1 (em ++ (timeoutStep t id).2) := by
  unfold timeoutStep
  cases hf : findEntry t.pending id with
  | none => simpa using h
  | some e =>
    obtain ⟨hnd, hle⟩ := h
    constructor
    · exact hnd.sublist (List.Sublist.map _ (removeId_sublist t.pending id))
    · show serialsM (removeId t.pending id)
          + ↑(settledSerials (em ++ (e.serials.take 1).map (fun s => (s, Outcome.timeout))))
          ≤ Multiset.range t.nextSerial
      rw [settledSerials_append, settledSerials_mapOutcome, coeAppend]
      have hrm := removeId_serialsM t.pending id e hnd hf
      have htake : ((e.serials.take 1 : List Nat) : Multiset Nat)
          ≤ (↑e.serials : Multiset Nat) := take_coe_le e.serials 1
      calc serialsM (removeId t.pending id)
            + (↑(settledSerials em) + ↑(e.serials.take 1))
          = (serialsM (removeId t.pending id) + ↑(e.serials.take 1))
            + ↑(settledSerials em) := by abel
        _ ≤ (serialsM (removeId t.pending id) + ↑e.serials)
            + ↑(settledSerials em) :=
              add_le_add_right (add_le_add_left htake _) _
        _ = serialsM t.pending + ↑(settledSerials em) := by rw [hrm]
        _ ≤ Multiset.range t.nextSerial := hle

theorem cancelStep_WF (t : Tracker) (em : List (Nat × Outcome)) (id : String)
    (h : TrackerWF t em) :
    TrackerWF (cancelStep t id).1 (em ++ (cancelStep t id).2) := by
  unfold cancelStep
  cases hf : findEntry t.pending id with
  | none => simpa using h
  | some e =>
    have := removeSettle_pending_WF t em id e Outcome.cancelled h hf
    exact ⟨this.1, this.2⟩

theorem clearStep_WF (t : Tracker) (em : List (Nat × Outcome))
    (h : TrackerWF t em) :
    TrackerWF (clearStep t).1 (em ++ (clearStep t).2) := by
  obtain ⟨hnd, hle⟩ := h
  constructor
  · simp [clearStep]
  · show serialsM ([] : List PendingEntry)
        + ↑(settledSerials (em ++ (clearStep t).2)) ≤ Multiset.range t.nextSerial
    rw [settledSerials_append, coeAppend, serialsM_nil]
    show 0 + (↑(settledSerials em)
        + ↑(settledSerials ((t.pending.map (fun e => settle e Outcome.cleared)).flatten)))
        ≤ Multiset.range t.nextSerial
    rw [settledSerials_clearEvents, zero_add, add_comm]
    exact hle

theorem sweepStep_WF (t : Tracker) (em : List (Nat × Outcome)) (now : Nat)
    (h : TrackerWF t em) :
    TrackerWF (sweepStep t now).1 (em ++ (sweepStep t now).2) := by
  obtain ⟨hnd, hle⟩ := h
  constructor
  · exact hnd.sublist (List.Sublist.map _ (sweepList_sublist t.defaultTimeout now t.pending))
  · show serialsM (sweepList t.defaultTimeout now t.pending).1
        + ↑(settledSerials (em ++ (sweepList t.defaultTimeout now t.pending).2))
        ≤ Multiset.range t.nextSerial
    rw [settledSerials_append, coeAppend]
    calc serialsM (sweepList t.defaultTimeout now t.pending).1
          + (↑(settledSerials em)
            + ↑(settledSerials (sweepList t.defaultTimeout now t.pending).2))
        = (serialsM (sweepList t.defaultTimeout now t.pending).1
            + ↑(settledSerials (sweepList t.defaultTimeout now t.pending).2))
          + ↑(settledSerials em) := by abel
      _ = serialsM t.pending + ↑(settledSerials em) := by
            rw [sweepList_serialsM]
      _ ≤ Multiset.range t.nextSerial := hle

theorem nodup_ids_snoc (ps : List PendingEntry) (new : PendingEntry)
    (hnd : (ps.map (fun e => e.eventId)).Nodup)
    (hfresh : ∀ e ∈ ps, ¬ e.eventId = new.eventId) :
    ((ps ++ [new]).map (fun e => e.eventId)).Nodup := by
  rw [List.map_append]
  apply List.Nodup.append hnd (by simp)
  intro a ha hb
  simp at hb
  rcases List.mem_map.1 ha with ⟨e, he, hee⟩
  exact hfresh e he (by rw [hee, hb])

theorem trackStep_WF (t : Tracker) (em : List (Nat × Outcome)) (now : Nat)
    (id ty : String) (tm : Nat) (h : TrackerWF t em) :
    TrackerWF (trackStep t now id ty tm).1 (em ++ (trackStep t now id ty tm).2) := by
  obtain ⟨hnd, hle⟩ := h
  unfold trackStep
  cases hf : findEntry t.pending id with
  | some e =>
    constructor
    · show ((attachDup t.pending id t.nextSerial).map (fun x => x.eventId)).Nodup
      rw [attachDup_id_map]
      exact hnd
    · show serialsM (attachDup t.pending id t.nextSerial)
          + ↑(settledSerials (em ++ [])) ≤ Multiset.range (t.nextSerial + 1)
      rw [List.append_nil]
      calc serialsM (attachDup t.pending id t.nextSerial) + ↑(settledSerials em)
          = (serialsM t.pending + {t.nextSerial}) + ↑(settledSerials em) := by
            rw [attachDup_serialsM t.pending id t.nextSerial hnd (by rw [hf]; rfl)]
        _ = (serialsM t.pending + ↑(settledSerials em)) + {t.nextSerial} := by abel
        _ ≤ Multiset.range t.nextSerial + {t.nextSerial} :=
              add_le_add_right hle {t.nextSerial}
        _ = Multiset.range (t.nextSerial + 1) := (rangeSucc t.nextSerial).symm
  | none =>
    have hfresh := findEntry_none_all hf
    by_cases hcap : t.maxPending ≤ t.pending.length
    · cases holdest : oldestEntry t.pending with
      | none =>
        simp only [if_pos hcap, holdest]
        constructor
        · exact nodup_ids_snoc t.pending _ hnd hfresh
        · show serialsM (t.pending ++
              [{ eventId := id, eventType := ty, timestamp := now,
                 timeoutMs := tm, serials := [t.nextSerial] }])
              + ↑(settledSerials (em ++ [])) ≤ Multiset.range (t.nextSerial + 1)
          rw [List.append_nil, serialsM_append, serialsM_cons, serialsM_nil]
          have hsing : (↑([t.nextSerial] : List Nat) : Multiset Nat)
              = ({t.nextSerial} : Multiset Nat) := rfl
          rw [hsing]
          calc serialsM t.pending + ({t.nextSerial} + 0) + ↑(settledSerials em)
              = (serialsM t.pending + ↑(settledSerials em)) + {t.nextSerial} := by abel
            _ ≤ Multiset.range t.nextSerial + {t.nextSerial} :=
                  add_le_add_right hle {t.nextSerial}
            _ = Multiset.range (t.nextSerial + 1) := (rangeSucc t.nextSerial).symm
      | some old =>
        have hofind : findEntry t.pending old.eventId = some old :=
          findEntry_self t.pending old hnd (oldestEntry_mem holdest)
        have hrm := removeId_serialsM t.pending old.eventId old hnd hofind
        simp only [if_pos hcap, holdest]
        constructor
        · apply nodup_ids_snoc
          · exact hnd.sublist (List.Sublist.map _ (removeId_sublist t.pending old.eventId))
          · intro e he
            exact hfresh e ((removeId_sublist t.pending old.eventId).subset he)
        · show serialsM (removeId t.pending old.eventId ++
              [{ eventId := id, eventType := ty, timestamp := now,
                 timeoutMs := tm, serials := [t.nextSerial] }])
              + ↑(settledSerials (em ++ settle old Outcome.limit))
              ≤ Multiset.range (t.nextSerial + 1)
          rw [serialsM_append, serialsM_cons, serialsM_nil,
            settledSerials_append, settledSerials_settle, coeAppend]
          have hsing : (↑([t.nextSerial] : List Nat) : Multiset Nat)
              = ({t.nextSerial} : Multiset Nat) := rfl
          rw [hsing]
          calc serialsM (removeId t.pending old.eventId) + ({t.nextSerial} + 0)
                + (↑(settledSerials em) + ↑old.serials)
              = ((serialsM (removeId t.pending old.eventId) + ↑old.serials)
                + ↑(settledSerials em)) + {t.nextSerial} := by abel
            _ = (serialsM t.pending + ↑(settledSerials em)) + {t.nextSerial} := by
                  rw [hrm]
            _ ≤ Multiset.range t.nextSerial + {t.nextSerial} :=
                  add_le_add_right hle {t.nextSerial}
            _ = Multiset.range (t.nextSerial + 1) := (rangeSucc t.nextSerial).symm
    · simp only [if_neg hcap]
      constructor
      · exact nodup_ids_snoc t.pending _ hnd hfresh
      · show serialsM (t.pending ++
            [{ eventId := id, eventType := ty, timestamp := now,
               timeoutMs := tm, serials := [t.nextSerial] }])
            + ↑(settledSerials (em ++ [])) ≤ Multiset.range (t.nextSerial + 1)
        rw [List.append_nil, serialsM_append, serialsM_cons, serialsM_nil]
        have hsing : (↑([t.nextSerial] : List Nat) : Multiset Nat)
            = ({t.nextSerial} : Multiset Nat) := rfl
        rw [hsing]
        calc serialsM t.pending + ({t.nextSerial} + 0) + ↑(settledSerials em)
            = (serialsM t.pending + ↑(settledSerials em)) + {t.nextSerial} := by abel
          _ ≤ Multiset.range t.nextSerial + {t.nextSerial} :=
                add_le_add_right hle {t.nextSerial}
          _ = Multiset.range (t.nextSerial + 1) := (rangeSucc t.nextSerial).symm

theorem trackerStep_WF (t : Tracker) (em : List (Nat × Outcome)) (op : TrackerOp)
    (h : TrackerWF t em) :
    TrackerWF (trackerStep t op).1 (em ++ (trackerStep t op).2) := by
  cases op with
  | track now id ty tm => exact trackStep_WF t em now id ty tm h
  | ackMatch id => exact matchAckStep_WF t em id h
  | fireTimeout id => exact timeoutStep_WF t em id h
  | cancel id => exact cancelStep_WF t em id h
  | clearAll => exact clearStep_WF t em h
  | sweep now => exact sweepStep_WF t em now h

theorem runTracker_WF (ops : List TrackerOp) (t : Tracker) (em : List (Nat × Outcome))
    (h : TrackerWF t em) :
    TrackerWF (runTracker t ops).1 (em ++ (runTracker t ops).2) := by
  induction ops generalizing t em with
  | nil => simpa [runTracker] using h
  | cons op rest ih =>
    have hstep := trackerStep_WF t em op h
    have := ih (trackerStep t op).1 (em ++ (trackerStep t op).2) hstep
    simpa [runTracker, List.append_assoc] using this

theorem initTracker_WF (dflt cap : Nat) : TrackerWF (initTracker dflt cap) [] := by
  constructor
  · simp [initTracker]
  · show serialsM [] + ↑(settledSerials []) ≤ Multiset.range 0
    exact le_of_eq rfl

/-- C3 amended: every future the tracker hands out (identified by its
serial) settles at most once - the settled serials are distinct and
disjoint from the serials still attached to pending entries, and both
lie below the allocation counter.  Settlement-or-pending does NOT hold
for every allocated future: the per-request timer rejects only the
original promise of a timed-out entry and removes it, so futures from
duplicate tracking are orphaned (see timeout_orphans_duplicate). -/
theorem tracker_settles_once (dflt cap : Nat) (ops : List TrackerOp) :
    (settledSerials (runTracker (initTracker dflt cap) ops).2).Nodup ∧
    (pendingSerials (runTracker (initTracker dflt cap) ops).1).Nodup ∧
    (∀ s, s ∈ settledSerials (runTracker (initTracker dflt cap) ops).2 →
        s ∉ pendingSerials (runTracker (initTracker dflt cap) ops).1) ∧
    (∀ s, s ∈ settledSerials (runTracker (initTracker dflt cap) ops).2 ∨
          s ∈ pendingSerials (runTracker (initTracker dflt cap) ops).1 →
        s < (runTracker (initTracker dflt cap) ops).1.nextSerial) := by
  have hwf := runTracker_WF ops (initTracker dflt cap) [] (initTracker_WF dflt cap)
  rw [List.nil_append] at hwf
  obtain ⟨hnd, hle⟩ := hwf
  have hps : (↑(pendingSerials (runTracker (initTracker dflt cap) ops).1) : Multiset Nat)
      = serialsM (runTracker (initTracker dflt cap) ops).1.pending := rfl
  have hdup : (serialsM (runTracker (initTracker dflt cap) ops).1.pending
      + ↑(settledSerials (runTracker (initTracker dflt cap) ops).2)).Nodup :=
    Multiset.nodup_of_le hle (Multiset.nodup_range _)
  rw [Multiset.nodup_add] at hdup
  obtain ⟨hp, hsd, hdisj⟩ := hdup
  refine ⟨Multiset.coe_nodup.1 hsd, ?_, ?_, ?_⟩
  · rw [← hps] at hp
    exact Multiset.coe_nodup.1 hp
  · intro a ha hb
    rw [← hps] at hdisj
    exact (Multiset.disjoint_left.1 hdisj) (Multiset.mem_coe.2 hb) (Multiset.mem_coe.2 ha)
  · intro a ha
    have hmem : a ∈ serialsM (runTracker (initTracker dflt cap) ops).1.pending
        + ↑(settledSerials (runTracker (initTracker dflt cap) ops).2) := by
      rcases ha with ha | ha
      · exact Multiset.mem_add.2 (Or.inr (Multiset.mem_coe.2 ha))
      · rw [← hps]
        exact Multiset.mem_add.2 (Or.inl (Multiset.mem_coe.2 ha))
    have := Multiset.mem_of_le hle hmem
    exact Multiset.mem_range.1 this

/-- A duplicate-tracked future is orphaned by the per-request timer:
after a track, a duplicate track of the same eventId, and the timer
firing, only the original future (serial 0) has settled, the pending
map is empty, yet serial 1 was allocated - so serial 1 is neither
settled nor pending, matching request-tracker.ts lines 109-116, which
reject through the original closure only. -/
theorem timeout_orphans_duplicate :
    (runTracker (initTracker 30000 100)
        [TrackerOp.track 0 "a" "T" 10, TrackerOp.track 1 "a" "T" 10,
         TrackerOp.fireTimeout "a"]).2 = [(0, Outcome.timeout)] ∧
    (runTracker (initTracker 30000 100)
        [TrackerOp.track 0 "a" "T" 10, TrackerOp.track 1 "a" "T" 10,
         TrackerOp.fireTimeout "a"]).1.pending = [] ∧
    (runTracker (initTracker 30000 100)
        [TrackerOp.track 0 "a" "T" 10, TrackerOp.track 1 "a" "T" 10,
         TrackerOp.fireTimeout "a"]).1.nextSerial = 2 := by
  refine ⟨by decide, by decide, by decide⟩


theorem removeId_length_lt (ps : List PendingEntry) (e : PendingEntry) (hm : e ∈ ps) :
    (removeId ps e.eventId).length < ps.length := by
  induction ps with
  | nil => simp at hm
  | cons x t ih =>
    by_cases hb : x.eventId = e.eventId
    · have : removeId (x :: t) e.eventId = removeId t e.eventId := by
        unfold removeId
        rw [List.filter_cons_of_neg (by simp [hb])]
      rw [this]
      have hsub := List.Sublist.length_le (removeId_sublist t e.eventId)
      simp only [List.length_cons]
      omega
    · have hxe : ¬ x = e := fun hc => hb (by rw [hc])
      have het : e ∈ t := by
        rcases List.mem_cons.1 hm with hc | hc
        · exact absurd hc.symm hxe
        · exact hc
      have : removeId (x :: t) e.eventId = x :: removeId t e.eventId := by
        unfold removeId
        rw [List.filter_cons_of_pos (by simp [hb])]
      rw [this]
      simp only [List.length_cons]
      exact Nat.succ_lt_succ (ih het)

theorem trackStep_maxPending (t : Tracker) (now : Nat) (id ty : String) (tm : Nat) :
    (trackStep t now id ty tm).1.maxPending = t.maxPending := by
  unfold trackStep
  cases findEntry t.pending id <;> rfl

theorem matchAckStep_maxPending (t : Tracker) (id : String) :
    (matchAckStep t id).1.maxPending = t.maxPending := by
  unfold matchAckStep
  cases findEntry t.pending id <;> rfl

theorem timeoutStep_maxPending (t : Tracker) (id : String) :
    (timeoutStep t id).1.maxPending = t.maxPending := by
  unfold timeoutStep
  cases findEntry t.pending id <;> rfl

theorem cancelStep_maxPending (t : Tracker) (id : String) :
    (cancelStep t id).1.maxPending = t.maxPending := by
  unfold cancelStep
  cases findEntry t.pending id <;> rfl

theorem trackerStep_maxPending (t : Tracker) (op : TrackerOp) :
    (trackerStep t op).1.maxPending = t.maxPending := by
  cases op with
  | track now id ty tm => exact trackStep_maxPending t now id ty tm
  | ackMatch id => exact matchAckStep_maxPending t id
  | fireTimeout id => exact timeoutStep_maxPending t id
  | cancel id => exact cancelStep_maxPending t id
  | clearAll => rfl
  | sweep now => rfl

theorem trackStep_length (t : Tracker) (now : Nat) (id ty : String) (tm : Nat)
    (h1 : 1 ≤ t.maxPending) (hlen : t.pending.length ≤ t.maxPending) :
    (trackStep t now id ty tm).1.pending.length ≤ t.maxPending := by
  unfold trackStep
  cases hf : findEntry t.pending id with
  | some e =>
    show (attachDup t.pending id t.nextSerial).length ≤ t.maxPending
    unfold attachDup
    rw [List.length_map]
    exact hlen
  | none =>
    by_cases hcap : t.maxPending ≤ t.pending.length
    · cases holdest : oldestEntry t.pending with
      | none =>
        have hemp : t.pending = [] := by
          by_contra hne
          have := oldestEntry_isSome hne
          rw [holdest] at this
          exact absurd this (by simp)
        rw [hemp] at hcap
        simp at hcap
        omega
      | some old =>
        simp only [if_pos hcap, holdest]
        show ((removeId t.pending old.eventId) ++ _).length ≤ t.maxPending
        rw [List.length_append]
        have := removeId_length_lt t.pending old (oldestEntry_mem holdest)
        simp only [List.length_cons, List.length_nil]
        omega
    · simp only [if_neg hcap]
      show (t.pending ++ _).length ≤ t.maxPending
      rw [List.length_append]
      simp only [List.length_cons, List.length_nil]
      omega

theorem matchAckStep_length (t : Tracker) (id : String)
    (hlen : t.pending.length ≤ t.maxPending) :
    (matchAckStep t id).1.pending.length ≤ t.maxPending := by
  unfold matchAckStep
  cases hf : findEntry t.pending id with
  | some e =>
    have := List.Sublist.length_le (removeId_sublist t.pending id)
    show (removeId t.pending id).length ≤ t.maxPending
    omega
  | none => exact hlen

theorem timeoutStep_length (t : Tracker) (id : String)
    (hlen : t.pending.length ≤ t.maxPending) :
    (timeoutStep t id).1.pending.length ≤ t.maxPending := by
  unfold timeoutStep
  cases hf : findEntry t.pending id with
  | some e =>
    have := List.Sublist.length_le (removeId_sublist t.pending id)
    show (removeId t.pending id).length ≤ t.maxPending
    omega
  | none => exact hlen

theorem cancelStep_length (t : Tracker) (id : String)
    (hlen : t.pending.length ≤ t.maxPending) :
    (cancelStep t id).1.pending.length ≤ t.maxPending := by
  unfold cancelStep
  cases hf : findEntry t.pending id with
  | some e =>
    have := List.Sublist.length_le (removeId_sublist t.pending id)
    show (removeId t.pending id).length ≤ t.maxPending
    omega
  | none => exact hlen

theorem trackerStep_length (t : Tracker) (op : TrackerOp)
    (h1 : 1 ≤ t.maxPending) (hlen : t.pending.length ≤ t.maxPending) :
    (trackerStep t op).1.pending.length ≤ t.maxPending := by
  cases op with
  | track now id ty tm => exact trackStep_length t now id ty tm h1 hlen
  | ackMatch id => exact matchAckStep_length t id hlen
  | fireTimeout id => exact timeoutStep_length t id hlen
  | cancel id => exact cancelStep_length t id hlen
  | clearAll =>
    show ([] : List PendingEntry).length ≤ t.maxPending
    simp
  | sweep now =>
    have := List.Sublist.length_le (sweepList_sublist t.defaultTimeout now t.pending)
    show (sweepList t.defaultTimeout now t.pending).1.length ≤ t.maxPending
    omega

theorem runTracker_length (ops : List TrackerOp) (t : Tracker)
    (h1 : 1 ≤ t.maxPending) (hlen : t.pending.length ≤ t.maxPending) :
    (runTracker t ops).1.pending.length ≤ t.maxPending ∧
    (runTracker t ops).1.maxPending = t.maxPending := by
  induction ops generalizing t with
  | nil => exact ⟨hlen, rfl⟩
  | cons op rest ih =>
    have hmax := trackerStep_maxPending t op
    have hstep := trackerStep_length t op h1 hlen
    have := ih (trackerStep t op).1 (hmax ▸ h1) (hmax ▸ hstep)
    simpa [runTracker, hmax] using this

/-- C4: starting from an empty tracker with capacity at least 1, the
pending map never exceeds the configured capacity; and a trackRequest
with a fresh eventId arriving at or over capacity first rejects the
entry of minimal timestamp with the tracker-limit error and removes it,
then inserts the new entry. -/
theorem tracker_capacity_and_eviction :
    (∀ dflt cap : Nat, ∀ ops : List TrackerOp, 1 ≤ cap →
      (runTracker (initTracker dflt cap) ops).1.pending.length ≤ cap) ∧
    (∀ t : Tracker, ∀ now : Nat, ∀ id ty : String, ∀ tm : Nat,
      findEntry t.pending id = none →
      t.maxPending ≤ t.pending.length →
      t.pending ≠ [] →
      ∃ old, oldestEntry t.pending = some old ∧
        (∀ e ∈ t.pending, old.timestamp ≤ e.timestamp) ∧
        trackStep t now id ty tm =
          ({ t with
              pending := removeId t.pending old.eventId ++
                [{ eventId := id, eventType := ty, timestamp := now,
                   timeoutMs := tm, serials := [t.nextSerial] }],
              nextSerial := t.nextSerial + 1 },
           settle old Outcome.limit)) := by
  constructor
  · intro dflt cap ops hcap
    exact (runTracker_length ops (initTracker dflt cap) hcap (by simp [initTracker])).1
  · intro t now id ty tm hf hcap hne
    have hsome := oldestEntry_isSome hne
    obtain ⟨old, holdest⟩ := Option.isSome_iff_exists.1 hsome
    refine ⟨old, holdest, oldestEntry_min holdest, ?_⟩
    unfold trackStep
    rw [hf]
    simp only [if_pos hcap, holdest]

def trackerAtCap : Tracker :=
  (runTracker (initTracker 30000 1) [TrackerOp.track 0 "a" "T" 10]).1

/-- Witness for tracker_capacity_and_eviction: a capacity-1 tracker
holding one request, receiving a second with a fresh eventId. -/
theorem tracker_capacity_and_eviction_witness :
    ((runTracker (initTracker 30000 1) [TrackerOp.track 0 "a" "T" 10]).1.pending.length ≤ 1) ∧
    (∃ old, oldestEntry trackerAtCap.pending = some old ∧
        (∀ e ∈ trackerAtCap.pending, old.timestamp ≤ e.timestamp) ∧
        trackStep trackerAtCap 5 "b" "T" 10 =
          ({ trackerAtCap with
              pending := removeId trackerAtCap.pending old.eventId ++
                [{ eventId := "b", eventType := "T", timestamp := 5,
                   timeoutMs := 10, serials := [trackerAtCap.nextSerial] }],
              nextSerial := trackerAtCap.nextSerial + 1 },
           settle old Outcome.limit)) :=
  ⟨tracker_capacity_and_eviction.1 30000 1 [TrackerOp.track 0 "a" "T" 10] (by decide),
   tracker_capacity_and_eviction.2 trackerAtCap 5 "b" "T" 10 (by decide) (by decide)
     (by decide)⟩

/-- C9 amended: one run of the periodic sweep rejects with the cleanup
error and removes exactly those pending entries whose age exceeds twice
the tracker default timeout; all other entries are kept unchanged, in
order.  The per-entry timeout plays no part in the test. -/
theorem sweep_ages_by_default_timeout (t : Tracker) (now : Nat) :
    (sweepStep t now).1.pending
        = t.pending.filter (fun e => !decide (2 * t.defaultTimeout < now - e.timestamp)) ∧
    (sweepStep t now).2
        = ((t.pending.filter (fun e => decide (2 * t.defaultTimeout < now - e.timestamp))).map
            (fun e => settle e Outcome.cleanup)).flatten :=
  ⟨sweepList_keep_filter t.defaultTimeout now t.pending,
   sweepList_events_filter t.defaultTimeout now t.pending⟩

/-- C9 counterexample: an entry with a per-request timeout of 100000 ms
and age 70000 ms is rejected and removed by the sweep (because 70000
exceeds twice the 30000 ms default timeout), although its age does not
exceed twice its own timeout, contradicting the claim. -/
theorem sweep_ignores_request_timeout :
    (runTracker (initTracker 30000 100)
        [TrackerOp.track 0 "e1" "T" 100000, TrackerOp.sweep 70000]).1.pending = [] ∧
    (runTracker (initTracker 30000 100)
        [TrackerOp.track 0 "e1" "T" 100000, TrackerOp.sweep 70000]).2
        = [(0, Outcome.cleanup)] ∧
    ¬ (2 * 100000 < 70000 - 0) := by
  refine ⟨by decide, by decide, by decide⟩

/-- C3 counterexample: a tracked request whose own timer never fired is
settled by the periodic sweep with the cleanup rejection, an outcome
outside the five the claim enumerates. -/
theorem track_settles_outside_claimed_outcomes :
    (runTracker (initTracker 30000 100)
        [TrackerOp.track 0 "e2" "T" 100000, TrackerOp.sweep 70000]).2
        = [(0, Outcome.cleanup)] ∧
    claimFiveOutcomes Outcome.cleanup = false := by
  refine ⟨by decide, by decide⟩

/-! ## Playback sequencer (src/lib/audio/playback.ts, class AudioPlayback)

Byte buffers live in an explicit heap indexed by address; playChunk
stores the address it was handed (the code stores the Uint8Array
reference, line 86), and the contiguous copy is taken only at schedule
time (the buffer slice of lines 177-180).  The single-threaded event
loop becomes an operation list: a proc operation is one iteration of the
processQueue loop (lines 118-136), pop-check-schedule, which runs
without interleaving in the common microtask path; mutate models an
external writer changing a buffer between turns; handleChunk is the
VoiceChat response-chunk handler (part_005 lines 74-140), which copies
the payload bytes into a fresh buffer before calling playChunk. -/

structure Chunk where
  audioAddr : Nat
  utteranceId : String
  sampleRate : Nat
  timestamp : Nat
  deriving DecidableEq, Repr

structure PlaybackState where
  audioQueue : List Chunk
  activeSources : List Nat
  isPlaying : Bool
  currentUtteranceId : Option String
  sampleRate : Nat
  isProcessingQueue : Bool
  deriving DecidableEq, Repr

/-- One scheduled output: what source.start hands the audio backend. -/
structure SchedEvent where
  utteranceId : String
  sampleRate : Nat
  bytes : List Nat
  deriving DecidableEq, Repr

structure AudioMachine where
  heap : Nat → List Nat
  nextAddr : Nat
  pb : PlaybackState
  nextSource : Nat

def heapUpdate (h : Nat → List Nat) (a : Nat) (v : List Nat) : Nat → List Nat :=
  fun x => if x = a then v else h x

/-- The sort comparator of playback.ts lines 95-99: utteranceId first
(string order), then timestamp. -/
def chunkLE (a b : Chunk) : Bool :=
  decide (a.utteranceId < b.utteranceId) ||
    (a.utteranceId == b.utteranceId && decide (a.timestamp ≤ b.timestamp))

def insertChunkSorted (c : Chunk) : List Chunk → List Chunk
  | [] => [c]
  | d :: ds => if chunkLE d c then d :: insertChunkSorted c ds else c :: d :: ds

/-- Stable sort by the comparator (Array.prototype.sort is stable); the
new chunk, pushed last, lands after chunks comparing equal to it. -/
def sortChunks (l : List Chunk) : List Chunk :=
  l.foldl (fun acc c => insertChunkSorted c acc) []

/-- Embeds AudioPlayback.stop (playback.ts lines 260-280): cancel all
active sources, empty the queue, clear the active utterance, reset the
flags. -/
def stopPlayback (p : PlaybackState) : PlaybackState :=
  { p with activeSources := [], audioQueue := [], isPlaying := false,
           currentUtteranceId := none, isProcessingQueue := false }

/-- Embeds AudioPlayback.playChunk (playback.ts lines 72-105): on a
different utteranceId, stop() first, then adopt the new utteranceId and
sampleRate; push the handed buffer reference (no copy) and re-sort the
queue. -/
def playChunkStep (m : AudioMachine) (addr rate : Nat) (uid : String) (ts : Nat) :
    AudioMachine :=
  let p1 :=
    if m.pb.currentUtteranceId = some uid then m.pb
    else { stopPlayback m.pb with currentUtteranceId := some uid, sampleRate := rate }
  let chunk : Chunk :=
    { audioAddr := addr, utteranceId := uid, sampleRate := rate, timestamp := ts }
  { m with pb := { p1 with audioQueue := sortChunks (p1.audioQueue ++ [chunk]) } }

/-- The 2-byte alignment of playback.ts lines 166-171: an odd trailing
byte is dropped. -/
def evenTruncate (l : List Nat) : List Nat :=
  if l.length % 2 = 0 then l else l.dropLast

/-- One iteration of the processQueue loop (playback.ts lines 111-140)
together with playChunkImmediately (lines 146-255): exit when the queue
is empty or no utterance is active; otherwise shift the head, skip it if
its utteranceId no longer matches, and otherwise validate, slice the
buffer contents as they are at schedule time, and start a source. -/
def procStep (m : AudioMachine) : AudioMachine × List SchedEvent :=
  match m.pb.audioQueue with
  | [] =>
    ({ m with pb := { m.pb with isProcessingQueue := false, isPlaying := false } }, [])
  | c :: rest =>
    match m.pb.currentUtteranceId with
    | none =>
      ({ m with pb := { m.pb with isProcessingQueue := false, isPlaying := false } }, [])
    | some u =>
      if c.utteranceId = u then
        if (m.heap c.audioAddr).length = 0 then
          ({ m with pb := { m.pb with audioQueue := rest } }, [])
        else if c.sampleRate = 0 ∨ 192000 < c.sampleRate then
          ({ m with pb := { m.pb with audioQueue := rest } }, [])
        else
          if (evenTruncate (m.heap c.audioAddr)).length = 0 then
            ({ m with pb := { m.pb with audioQueue := rest } }, [])
          else
            ({ m with
                pb :=
                  { m.pb with
                      audioQueue := rest,
                      activeSources := m.pb.activeSources ++ [m.nextSource],
                      isPlaying := true },
                nextSource := m.nextSource + 1 },
             [{ utteranceId := c.utteranceId, sampleRate := c.sampleRate,
                bytes := evenTruncate (m.heap c.audioAddr) }])
      else
        ({ m with pb := { m.pb with audioQueue := rest } }, [])

/-- Embeds the VoiceChat response-chunk handler (part_005 lines 74-140):
out-of-range sample rates fall back to the 16000 default, empty audio is
dropped, and the payload bytes are copied into a fresh buffer before
playChunk is called. -/
def handleChunkStep (m : AudioMachine) (payloadAddr rate : Nat) (uid : String)
    (ts : Nat) : AudioMachine :=
  if (m.heap payloadAddr).length = 0 then m
  else
    playChunkStep
      { m with heap := heapUpdate m.heap m.nextAddr (m.heap payloadAddr),
               nextAddr := m.nextAddr + 1 }
      m.nextAddr
      (if rate = 0 ∨ 192000 < rate then 16000 else rate) uid ts

inductive AudioOp
  | play (addr rate : Nat) (uid : String) (ts : Nat)
  | proc
  | stopOp
  | handleChunk (payloadAddr rate : Nat) (uid : String) (ts : Nat)
  | mutate (addr : Nat) (bytes : List Nat)
  | allocExt (bytes : List Nat)

def audioStep (m : AudioMachine) : AudioOp → AudioMachine × List SchedEvent
  | AudioOp.play a r u ts => (playChunkStep m a r u ts, [])
  | AudioOp.proc => procStep m
  | AudioOp.stopOp => ({ m with pb := stopPlayback m.pb }, [])
  | AudioOp.handleChunk a r u ts => (handleChunkStep m a r u ts, [])
  | AudioOp.mutate a bs => ({ m with heap := heapUpdate m.heap a bs }, [])
  | AudioOp.allocExt bs =>
    ({ m with heap := heapUpdate m.heap m.nextAddr bs, nextAddr := m.nextAddr + 1 }, [])

def runAudio (m : AudioMachine) : List AudioOp → AudioMachine × List SchedEvent
  | [] => (m, [])
  | op :: ops =>
    let r := audioStep m op
    let r' := runAudio r.1 ops
    (r'.1, r.2 ++ r'.2)

def initPlayback : PlaybackState :=
  { audioQueue := [], activeSources := [], isPlaying := false,
    currentUtteranceId := none, sampleRate := 16000, isProcessingQueue := false }

def initAudio : AudioMachine :=
  { heap := fun _ => [], nextAddr := 0, pb := initPlayback, nextSource := 0 }

def isPlayOf (u : String) : AudioOp → Bool
  | AudioOp.play _ _ uid _ => uid == u
  | AudioOp.handleChunk _ _ uid _ => uid == u
  | _ => false

def isSchedOf (u : String) (e : SchedEvent) : Bool :=
  e.utteranceId == u

/-- noSeq p q l says: no element satisfying q occurs strictly after an
element satisfying p. -/
def noSeq (p q : α → Bool) : List α → Bool
  | [] => true
  | x :: xs => (if p x then xs.all (fun y => !q y) else true) && noSeq p q xs

def QueueInv (m : AudioMachine) : Prop :=
  ∀ c ∈ m.pb.audioQueue, some c.utteranceId = m.pb.currentUtteranceId

theorem mem_insertChunkSorted {x c : Chunk} {l : List Chunk}
    (h : x ∈ insertChunkSorted c l) : x = c ∨ x ∈ l := by
  induction l with
  | nil =>
    simp [insertChunkSorted] at h
    exact Or.inl h
  | cons d ds ih =>
    unfold insertChunkSorted at h
    by_cases hle : chunkLE d c = true
    · rw [if_pos hle] at h
      rcases List.mem_cons.1 h with hxd | hrest
      · exact Or.inr (by simp [hxd])
      · rcases ih hrest with hc | hds
        · exact Or.inl hc
        · exact Or.inr (by simp [hds])
    · rw [if_neg hle] at h
      rcases List.mem_cons.1 h with hxc | hrest
      · exact Or.inl hxc
      · exact Or.inr hrest

theorem mem_foldl_insert {x : Chunk} (l : List Chunk) (acc : List Chunk)
    (h : x ∈ l.foldl (fun acc c => insertChunkSorted c acc) acc) :
    x ∈ acc ∨ x ∈ l := by
  induction l generalizing acc with
  | nil => exact Or.inl (by simpa using h)
  | cons c cs ih =>
    rw [List.foldl_cons] at h
    rcases ih (insertChunkSorted c acc) h with hacc | hcs
    · rcases mem_insertChunkSorted hacc with hxc | hxa
      · exact Or.inr (by simp [hxc])
      · exact Or.inl hxa
    · exact Or.inr (by simp [hcs])

theorem mem_sortChunks {x : Chunk} {l : List Chunk} (h : x ∈ sortChunks l) :
    x ∈ l := by
  rcases mem_foldl_insert l [] h with hacc | hl
  · simp at hacc
  · exact hl

theorem playChunkStep_current (m : AudioMachine) (a r : Nat) (u : String) (ts : Nat) :
    (playChunkStep m a r u ts).pb.currentUtteranceId = some u := by
  unfold playChunkStep
  by_cases hcur : m.pb.currentUtteranceId = some u
  · simp only [if_pos hcur]
    exact hcur
  · simp only [if_neg hcur]

theorem playChunkStep_heap (m : AudioMachine) (a r : Nat) (u : String) (ts : Nat) :
    (playChunkStep m a r u ts).heap = m.heap := by
  unfold playChunkStep
  by_cases hcur : m.pb.currentUtteranceId = some u
  · simp only [if_pos hcur]
  · simp only [if_neg hcur]

theorem queueInv_playChunkStep (m : AudioMachine) (a r : Nat) (u : String) (ts : Nat)
    (h : QueueInv m) : QueueInv (playChunkStep m a r u ts) := by
  intro c hc
  rw [playChunkStep_current]
  unfold playChunkStep at hc
  by_cases hcur : m.pb.currentUtteranceId = some u
  · simp only [if_pos hcur] at hc
    have hmem := mem_sortChunks hc
    rcases List.mem_append.1 hmem with hq | hnew
    · have := h c hq
      rw [hcur] at this
      exact this
    · simp at hnew
      rw [hnew]
  · simp only [if_neg hcur] at hc
    have hmem := mem_sortChunks hc
    rcases List.mem_append.1 hmem with hq | hnew
    · simp [stopPlayback] at hq
    · simp at hnew
      rw [hnew]
theorem procStep_current (m : AudioMachine) :
    (procStep m).1.pb.currentUtteranceId = m.pb.currentUtteranceId := by
  unfold procStep
  split
  · rfl
  · split
    · rfl
    · split
      · split
        · rfl
        · split
          · rfl
          · split
            · rfl
            · rfl
      · rfl

theorem procStep_queue_sub (m : AudioMachine) {c : Chunk}
    (hc : c ∈ (procStep m).1.pb.audioQueue) : c ∈ m.pb.audioQueue := by
  unfold procStep at hc
  split at hc
  · exact hc
  · rename_i c0 rest heq
    split at hc
    · exact hc
    · split at hc
      · split at hc
        · rw [heq]
          exact List.mem_cons_of_mem c0 hc
        · split at hc
          · rw [heq]
            exact List.mem_cons_of_mem c0 hc
          · split at hc
            · rw [heq]
              exact List.mem_cons_of_mem c0 hc
            · rw [heq]
              exact List.mem_cons_of_mem c0 hc
      · rw [heq]
        exact List.mem_cons_of_mem c0 hc

theorem queueInv_procStep (m : AudioMachine) (h : QueueInv m) :
    QueueInv (procStep m).1 := by
  intro c hc
  rw [procStep_current]
  exact h c (procStep_queue_sub m hc)

theorem procStep_events (m : AudioMachine) :
    (procStep m).2 = [] ∨
    ∃ e, (procStep m).2 = [e] ∧ some e.utteranceId = m.pb.currentUtteranceId := by
  unfold procStep
  split
  · exact Or.inl rfl
  · rename_i c0 rest heq
    split
    · exact Or.inl rfl
    · rename_i u hcur
      split
      · rename_i huid
        split
        · exact Or.inl rfl
        · split
          · exact Or.inl rfl
          · split
            · exact Or.inl rfl
            · refine Or.inr ⟨_, rfl, ?_⟩
              rw [hcur, huid]
      · exact Or.inl rfl
theorem handleChunkStep_current (m : AudioMachine) (a r : Nat) (u : String) (ts : Nat) :
    (handleChunkStep m a r u ts).pb.currentUtteranceId = some u ∨
    handleChunkStep m a r u ts = m := by
  unfold handleChunkStep
  by_cases h0 : (m.heap a).length = 0
  · rw [if_pos h0]
    exact Or.inr rfl
  · rw [if_neg h0]
    exact Or.inl (playChunkStep_current _ _ _ _ _)

theorem queueInv_handleChunkStep (m : AudioMachine) (a r : Nat) (u : String) (ts : Nat)
    (h : QueueInv m) : QueueInv (handleChunkStep m a r u ts) := by
  unfold handleChunkStep
  by_cases h0 : (m.heap a).length = 0
  · rw [if_pos h0]
    exact h
  · rw [if_neg h0]
    exact queueInv_playChunkStep _ _ _ _ _ h

theorem queueInv_stop (m : AudioMachine) :
    QueueInv { m with pb := stopPlayback m.pb } := by
  intro c hc
  simp [stopPlayback] at hc

theorem noSeq_of_all_not {α : Type} (p q : α → Bool) (l : List α)
    (h : l.all (fun y => !q y) = true) : noSeq p q l = true := by
  induction l with
  | nil => rfl
  | cons x xs ih =>
    rw [List.all_cons, Bool.and_eq_true] at h
    unfold noSeq
    rw [Bool.and_eq_true]
    refine ⟨?_, ih h.2⟩
    by_cases hp : p x = true
    · rw [if_pos hp]
      exact h.2
    · rw [if_neg hp]

theorem runAudio_no_sched_of (u1 : String) (ops : List AudioOp) :
    ∀ m : AudioMachine, QueueInv m → ¬ m.pb.currentUtteranceId = some u1 →
    (∀ op ∈ ops, isPlayOf u1 op = false) →
    ((runAudio m ops).2.all (fun e => !(isSchedOf u1 e))) = true := by
  induction ops with
  | nil =>
    intro m _ _ _
    rfl
  | cons op rest ih =>
    intro m hqi hcur hall
    have hrest : ∀ op' ∈ rest, isPlayOf u1 op' = false :=
      fun op' h' => hall op' (by simp [h'])
    show ((audioStep m op).2 ++ (runAudio (audioStep m op).1 rest).2).all
        (fun e => !(isSchedOf u1 e)) = true
    rw [List.all_append, Bool.and_eq_true]
    cases op with
    | play a r u ts =>
      have hu : ¬ u = u1 := by
        have := hall (AudioOp.play a r u ts) (by simp)
        simpa [isPlayOf] using this
      refine ⟨rfl, ?_⟩
      apply ih
      · exact queueInv_playChunkStep m a r u ts hqi
      · show ¬ (playChunkStep m a r u ts).pb.currentUtteranceId = some u1
        rw [playChunkStep_current]
        intro hcon
        exact hu (Option.some_inj.1 hcon)
      · exact hrest
    | proc =>
      constructor
      · rcases procStep_events m with hev | ⟨e, hev, heu⟩
        · show ((procStep m).2.all _) = true
          rw [hev]
          rfl
        · show ((procStep m).2.all _) = true
          rw [hev]
          have hne1 : ¬ e.utteranceId = u1 := by
            intro hcon
            rw [hcon] at heu
            exact hcur heu.symm
          simp [isSchedOf, hne1]
      · apply ih
        · exact queueInv_procStep m hqi
        · show ¬ (procStep m).1.pb.currentUtteranceId = some u1
          rw [procStep_current]
          exact hcur
        · exact hrest
    | stopOp =>
      refine ⟨rfl, ?_⟩
      apply ih
      · exact queueInv_stop m
      · show ¬ (stopPlayback m.pb).currentUtteranceId = some u1
        simp [stopPlayback]
      · exact hrest
    | handleChunk a r u ts =>
      have hu : ¬ u = u1 := by
        have := hall (AudioOp.handleChunk a r u ts) (by simp)
        simpa [isPlayOf] using this
      refine ⟨rfl, ?_⟩
      apply ih
      · exact queueInv_handleChunkStep m a r u ts hqi
      · show ¬ (handleChunkStep m a r u ts).pb.currentUtteranceId = some u1
        rcases handleChunkStep_current m a r u ts with hcu | hunch
        · rw [hcu]
          intro hcon
          exact hu (Option.some_inj.1 hcon)
        · rw [hunch]
          exact hcur
      · exact hrest
    | mutate a bs =>
      refine ⟨rfl, ?_⟩
      apply ih
      · exact hqi
      · exact hcur
      · exact hrest
    | allocExt bs =>
      refine ⟨rfl, ?_⟩
      apply ih
      · exact hqi
      · exact hcur
      · exact hrest
theorem runAudio_noSeq (u1 u2 : String) (hne : ¬ u1 = u2) (ops : List AudioOp) :
    ∀ m : AudioMachine, QueueInv m →
    noSeq (isPlayOf u2) (isPlayOf u1) ops = true →
    (m.pb.currentUtteranceId = some u2 →
      ops.all (fun op => !(isPlayOf u1 op)) = true) →
    noSeq (isSchedOf u2) (isSchedOf u1) (runAudio m ops).2 = true := by
  induction ops with
  | nil =>
    intro m _ _ _
    rfl
  | cons op rest ih =>
    intro m hqi hns h3
    have hns2 : noSeq (isPlayOf u2) (isPlayOf u1) rest = true := by
      have h' := hns
      unfold noSeq at h'
      rw [Bool.and_eq_true] at h'
      exact h'.2
    have hnsIf : (if isPlayOf u2 op = true then
        rest.all (fun y => !(isPlayOf u1 y)) else true) = true := by
      have h' := hns
      unfold noSeq at h'
      rw [Bool.and_eq_true] at h'
      exact h'.1
    have h3tail : (audioStep m op).1.pb.currentUtteranceId = some u2 →
        rest.all (fun op' => !(isPlayOf u1 op')) = true := by
      intro hcu2
      cases op with
      | play a r u ts =>
        have hcu : (playChunkStep m a r u ts).pb.currentUtteranceId = some u :=
          playChunkStep_current m a r u ts
        have hu2 : u = u2 := by
          have : (audioStep m (AudioOp.play a r u ts)).1.pb.currentUtteranceId
              = some u := hcu
          rw [hcu2] at this
          exact (Option.some_inj.1 this.symm)
        have hp2 : isPlayOf u2 (AudioOp.play a r u ts) = true := by
          simp [isPlayOf, hu2]
        rw [if_pos hp2] at hnsIf
        exact hnsIf
      | proc =>
        have hc : (procStep m).1.pb.currentUtteranceId = m.pb.currentUtteranceId :=
          procStep_current m
        have hm2 : m.pb.currentUtteranceId = some u2 := by
          rw [← hc]
          exact hcu2
        have := h3 hm2
        rw [List.all_cons, Bool.and_eq_true] at this
        exact this.2
      | stopOp =>
        have : (audioStep m AudioOp.stopOp).1.pb.currentUtteranceId = none := by
          show (stopPlayback m.pb).currentUtteranceId = none
          rfl
        rw [hcu2] at this
        exact absurd this (by simp)
      | handleChunk a r u ts =>
        rcases handleChunkStep_current m a r u ts with hcu | hunch
        · have hu2 : u = u2 := by
            have : (audioStep m (AudioOp.handleChunk a r u ts)).1.pb.currentUtteranceId
                = some u := hcu
            rw [hcu2] at this
            exact (Option.some_inj.1 this.symm)
          have hp2 : isPlayOf u2 (AudioOp.handleChunk a r u ts) = true := by
            simp [isPlayOf, hu2]
          rw [if_pos hp2] at hnsIf
          exact hnsIf
        · have hm2 : m.pb.currentUtteranceId = some u2 := by
            have : (audioStep m (AudioOp.handleChunk a r u ts)).1.pb.currentUtteranceId
                = m.pb.currentUtteranceId := by
              show (handleChunkStep m a r u ts).pb.currentUtteranceId = _
              rw [hunch]
            rw [← this]
            exact hcu2
          have := h3 hm2
          rw [List.all_cons, Bool.and_eq_true] at this
          exact this.2
      | mutate a bs =>
        have := h3 hcu2
        rw [List.all_cons, Bool.and_eq_true] at this
        exact this.2
      | allocExt bs =>
        have := h3 hcu2
        rw [List.all_cons, Bool.and_eq_true] at this
        exact this.2
    have hqi1 : QueueInv (audioStep m op).1 := by
      cases op with
      | play a r u ts => exact queueInv_playChunkStep m a r u ts hqi
      | proc => exact queueInv_procStep m hqi
      | stopOp => exact queueInv_stop m
      | handleChunk a r u ts => exact queueInv_handleChunkStep m a r u ts hqi
      | mutate a bs => exact hqi
      | allocExt bs => exact hqi
    have htail := ih (audioStep m op).1 hqi1 hns2 h3tail
    show noSeq _ _ ((audioStep m op).2 ++ (runAudio (audioStep m op).1 rest).2) = true
    cases op with
    | play a r u ts => exact htail
    | stopOp => exact htail
    | handleChunk a r u ts => exact htail
    | mutate a bs => exact htail
    | allocExt bs => exact htail
    | proc =>
      rcases procStep_events m with hev | ⟨e, hev, heu⟩
      · show noSeq _ _ ((procStep m).2 ++ _) = true
        rw [hev, List.nil_append]
        exact htail
      · show noSeq _ _ ((procStep m).2 ++ _) = true
        rw [hev, List.singleton_append]
        unfold noSeq
        rw [Bool.and_eq_true]
        refine ⟨?_, htail⟩
        by_cases he2 : e.utteranceId = u2
        · rw [if_pos (by simp [isSchedOf, he2])]
          have hm2 : m.pb.currentUtteranceId = some u2 := by
            rw [← heu, he2]
          have hrest := h3 hm2
          rw [List.all_cons, Bool.and_eq_true] at hrest
          have hrestF : ∀ op' ∈ rest, isPlayOf u1 op' = false := by
            intro op' hop'
            have := (List.all_eq_true.1 hrest.2) op' hop'
            simpa using this
          have hK := runAudio_no_sched_of u1 rest (audioStep m AudioOp.proc).1
            hqi1 ?_ hrestF
          · exact hK
          · show ¬ (procStep m).1.pb.currentUtteranceId = some u1
            rw [procStep_current, hm2]
            intro hcon
            exact hne (Option.some_inj.1 hcon.symm)
        · rw [if_neg (by simp [isSchedOf, he2])]
theorem procStep_events_empty (m : AudioMachine) (hq : m.pb.audioQueue = []) :
    (procStep m).2 = [] := by
  unfold procStep
  split
  · rfl
  · rename_i c rest heq
    rw [hq] at heq
    exact absurd heq (by simp)

theorem procStep_events_noneCur (m : AudioMachine)
    (hc : m.pb.currentUtteranceId = none) : (procStep m).2 = [] := by
  unfold procStep
  split
  · rfl
  · split
    · rfl
    · rename_i u hcur
      rw [hc] at hcur
      exact absurd hcur (by simp)

theorem procStep_events_cons (m : AudioMachine) (c : Chunk) (rest : List Chunk)
    (u : String) (hq : m.pb.audioQueue = c :: rest)
    (hc : m.pb.currentUtteranceId = some u) :
    (procStep m).2 =
      if c.utteranceId = u then
        if (m.heap c.audioAddr).length = 0 then []
        else if c.sampleRate = 0 ∨ 192000 < c.sampleRate then []
        else if (evenTruncate (m.heap c.audioAddr)).length = 0 then []
        else [{ utteranceId := c.utteranceId, sampleRate := c.sampleRate,
                bytes := evenTruncate (m.heap c.audioAddr) }]
      else [] := by
  unfold procStep
  split
  · rename_i heq
    rw [hq] at heq
    exact absurd heq (by simp)
  · rename_i c0 rest0 heq
    have hinj : c0 = c ∧ rest0 = rest := by
      have h2 := heq.symm.trans hq
      exact ⟨(List.cons.injEq c0 rest0 c rest ▸ h2).1, (List.cons.injEq c0 rest0 c rest ▸ h2).2⟩
    obtain ⟨hc0, hr0⟩ := hinj
    split
    · rename_i hcur
      rw [hc] at hcur
      exact absurd hcur (by simp)
    · rename_i u0 hcur
      have hu0 : u0 = u := by
        rw [hc] at hcur
        exact (Option.some_inj.1 hcur).symm
      rw [hc0, hr0, hu0]
      by_cases h1 : c.utteranceId = u
      · rw [if_pos h1, if_pos h1]
        by_cases h2 : (m.heap c.audioAddr).length = 0
        · rw [if_pos h2, if_pos h2]
        · rw [if_neg h2, if_neg h2]
          by_cases h3 : c.sampleRate = 0 ∨ 192000 < c.sampleRate
          · rw [if_pos h3, if_pos h3]
          · rw [if_neg h3, if_neg h3]
            by_cases h4 : (evenTruncate (m.heap c.audioAddr)).length = 0
            · rw [if_pos h4, if_pos h4]
            · rw [if_neg h4, if_neg h4]
      · rw [if_neg h1, if_neg h1]

theorem procStep_events_congr (mL mR : AudioMachine)
    (hq : mL.pb.audioQueue = mR.pb.audioQueue)
    (hc : mL.pb.currentUtteranceId = mR.pb.currentUtteranceId)
    (hh : ∀ c ∈ mR.pb.audioQueue, mL.heap c.audioAddr = mR.heap c.audioAddr) :
    (procStep mL).2 = (procStep mR).2 := by
  cases hqL : mL.pb.audioQueue with
  | nil =>
    have hqR : mR.pb.audioQueue = [] := by rw [← hq, hqL]
    rw [procStep_events_empty mL hqL, procStep_events_empty mR hqR]
  | cons c rest =>
    have hqR : mR.pb.audioQueue = c :: rest := by rw [← hq, hqL]
    cases hcL : mL.pb.currentUtteranceId with
    | none =>
      have hcR : mR.pb.currentUtteranceId = none := by rw [← hc, hcL]
      rw [procStep_events_noneCur mL hcL, procStep_events_noneCur mR hcR]
    | some u =>
      have hcR : mR.pb.currentUtteranceId = some u := by rw [← hc, hcL]
      rw [procStep_events_cons mL c rest u hqL hcL,
        procStep_events_cons mR c rest u hqR hcR]
      have hheap : mL.heap c.audioAddr = mR.heap c.audioAddr := by
        apply hh
        rw [hqR]
        simp
      rw [hheap]

theorem playChunkStep_queue (m : AudioMachine) (a r : Nat) (u : String) (ts : Nat)
    (hq : m.pb.audioQueue = []) :
    (playChunkStep m a r u ts).pb.audioQueue
      = [{ audioAddr := a, utteranceId := u, sampleRate := r, timestamp := ts }] := by
  unfold playChunkStep
  by_cases hcur : m.pb.currentUtteranceId = some u
  · simp only [if_pos hcur]
    show sortChunks (m.pb.audioQueue ++
      [{ audioAddr := a, utteranceId := u, sampleRate := r, timestamp := ts }]) = _
    rw [hq]
    rfl
  · simp only [if_neg hcur]
    show sortChunks ((stopPlayback m.pb).audioQueue ++
      [{ audioAddr := a, utteranceId := u, sampleRate := r, timestamp := ts }]) = _
    rfl

theorem handleChunkStep_queue_addr (m : AudioMachine) (a rate : Nat) (uid : String)
    (ts : Nat) (hq : m.pb.audioQueue = []) :
    ∀ c ∈ (handleChunkStep m a rate uid ts).pb.audioQueue, c.audioAddr = m.nextAddr := by
  intro c hc
  unfold handleChunkStep at hc
  by_cases h0 : (m.heap a).length = 0
  · rw [if_pos h0] at hc
    rw [hq] at hc
    exact absurd hc (List.not_mem_nil c)
  · rw [if_neg h0] at hc
    rw [playChunkStep_queue
      { heap := heapUpdate m.heap m.nextAddr (m.heap a), nextAddr := m.nextAddr + 1,
        pb := m.pb, nextSource := m.nextSource }
      m.nextAddr (if rate = 0 ∨ 192000 < rate then 16000 else rate) uid ts hq] at hc
    rcases List.mem_singleton.1 hc with hce
    rw [hce]
/-- C1 counterexample: playChunk stores the handed buffer by reference
(playback.ts line 86) and the contiguous copy is taken only at schedule
time, so two runs that differ only in a mutation of the handed buffer
after playChunk has returned schedule different samples. -/
theorem playChunk_no_copy_at_enqueue :
    (runAudio initAudio
        [AudioOp.allocExt [1, 2], AudioOp.play 0 16000 "u" 0, AudioOp.proc]).2
      = [{ utteranceId := "u", sampleRate := 16000, bytes := [1, 2] }] ∧
    (runAudio initAudio
        [AudioOp.allocExt [1, 2], AudioOp.play 0 16000 "u" 0,
         AudioOp.mutate 0 [9, 9], AudioOp.proc]).2
      = [{ utteranceId := "u", sampleRate := 16000, bytes := [9, 9] }] ∧
    ([9, 9] : List Nat) ≠ [1, 2] := by
  refine ⟨by decide, by decide, by decide⟩

/-- C1 amended: the independent copy is made by the producer, not by the
sequencer at enqueue.  The VoiceChat response-chunk handler copies the
payload bytes into a fresh buffer before calling playChunk, so mutating
the original payload buffer after the handler has run does not change
the samples the sequencer schedules. -/
theorem handler_copy_insulates_playback (m : AudioMachine) (a rate : Nat)
    (uid : String) (ts : Nat) (bs : List Nat)
    (hq : m.pb.audioQueue = []) (ha : ¬ a = m.nextAddr) :
    (runAudio m [AudioOp.handleChunk a rate uid ts, AudioOp.mutate a bs,
        AudioOp.proc]).2
      = (runAudio m [AudioOp.handleChunk a rate uid ts, AudioOp.proc]).2 := by
  show ([] ++ ([] ++ ((procStep
      { handleChunkStep m a rate uid ts with
          heap := heapUpdate (handleChunkStep m a rate uid ts).heap a bs }).2 ++ [])))
    = ([] ++ ((procStep (handleChunkStep m a rate uid ts)).2 ++ []))
  simp only [List.nil_append, List.append_nil]
  apply procStep_events_congr
  · rfl
  · rfl
  · intro c hc
    have haddr : c.audioAddr = m.nextAddr :=
      handleChunkStep_queue_addr m a rate uid ts hq c hc
    show heapUpdate (handleChunkStep m a rate uid ts).heap a bs c.audioAddr
        = (handleChunkStep m a rate uid ts).heap c.audioAddr
    unfold heapUpdate
    rw [if_neg]
    rw [haddr]
    intro hcon
    exact ha hcon.symm

/-- Witness for handler_copy_insulates_playback: an empty machine with a
payload buffer at address 5. -/
theorem handler_copy_insulates_playback_witness :
    (runAudio initAudio [AudioOp.handleChunk 5 16000 "u" 0,
        AudioOp.mutate 5 [9, 9], AudioOp.proc]).2
      = (runAudio initAudio [AudioOp.handleChunk 5 16000 "u" 0, AudioOp.proc]).2 :=
  handler_copy_insulates_playback initAudio 5 16000 "u" 0 [9, 9] (by decide) (by decide)

/-- C2: calling playChunk with a different utteranceId performs stop
first (all sources cancelled, queue emptied) and then adopts the new
utterance; consequently, over every operation sequence from the initial
machine in which no play call for the old utterance follows a play call
for the new one, no chunk of the old utterance is ever scheduled after a
chunk of the new utterance has been scheduled. -/
theorem playback_utterance_preemption :
    (∀ (m : AudioMachine) (a r : Nat) (u : String) (ts : Nat),
      ¬ m.pb.currentUtteranceId = some u →
      (playChunkStep m a r u ts).pb.activeSources = [] ∧
      (playChunkStep m a r u ts).pb.audioQueue
        = [{ audioAddr := a, utteranceId := u, sampleRate := r, timestamp := ts }] ∧
      (playChunkStep m a r u ts).pb.currentUtteranceId = some u) ∧
    (∀ (ops : List AudioOp) (u1 u2 : String), ¬ u1 = u2 →
      noSeq (isPlayOf u2) (isPlayOf u1) ops = true →
      noSeq (isSchedOf u2) (isSchedOf u1) (runAudio initAudio ops).2 = true) := by
  constructor
  · intro m a r u ts hcur
    refine ⟨?_, ?_, ?_⟩
    · unfold playChunkStep
      simp only [if_neg hcur]
      rfl
    · unfold playChunkStep
      simp only [if_neg hcur]
      show sortChunks ((stopPlayback m.pb).audioQueue ++ _) = _
      rfl
    · exact playChunkStep_current m a r u ts
  · intro ops u1 u2 hne hns
    apply runAudio_noSeq u1 u2 hne ops initAudio
    · intro c hc
      exact absurd hc (List.not_mem_nil c)
    · exact hns
    · intro hcon
      exact absurd hcon (by simp [initAudio, initPlayback])

/-- Witness for playback_utterance_preemption: a switch from a fresh
machine, and the preemption scenario u1 then u2. -/
theorem playback_utterance_preemption_witness :
    (playChunkStep initAudio 0 16000 "u" 0).pb.currentUtteranceId = some "u" ∧
    noSeq (isSchedOf "u2") (isSchedOf "u1")
      (runAudio initAudio
        [AudioOp.play 0 16000 "u1" 0, AudioOp.play 1 16000 "u2" 1,
         AudioOp.proc]).2 = true :=
  ⟨(playback_utterance_preemption.1 initAudio 0 16000 "u" 0 (by decide)).2.2,
   playback_utterance_preemption.2
     [AudioOp.play 0 16000 "u1" 0, AudioOp.play 1 16000 "u2" 1, AudioOp.proc]
     "u1" "u2" (by decide) (by decide)⟩

/-! ## Socket client (src/lib/websocket/client/types.ts, class SocketClient)

Connection waiters, the reconnect counter and timer, and the network
monitor status are modelled explicitly; JavaScript callbacks become
operations: openEv is ws.onopen (lines 116-122), closeEv is ws.onclose
(lines 143-157), timerFire is the reconnect setTimeout callback (lines
340-359), addWaiter is a send that goes through waitForConnection
(lines 234-283), waiterTimeout is a waiter timeout firing (lines
253-259), netChange is the network monitor change subscription (lines
72-79). -/

inductive ConnState
  | disconnected
  | connecting
  | connected
  | reconnecting
  | error
  deriving DecidableEq, Repr

structure Waiter where
  wid : Nat
  timestamp : Nat
  deriving DecidableEq, Repr

structure SocketClient where
  wsExists : Bool
  wsOpen : Bool
  currentUrl : Option String
  connState : ConnState
  reconnectAttempts : Nat
  maxReconnectAttempts : Nat
  reconnectTimerSet : Bool
  shouldReconnect : Bool
  waiters : List Waiter
  nextWaiterId : Nat
  online : Bool
  deriving DecidableEq, Repr

inductive ClientEv
  | waiterResolved (wid : Nat)
  | waiterRejected (wid : Nat)
  | scheduled (attemptsBefore delayMs : Nat)
  | exhausted (attempts : Nat)
  deriving DecidableEq, Repr

/-- Embeds SocketClient.getReconnectDelay (types.ts lines 52-61) with
the configured delays 2000, 5000, 10000 ms. -/
def getReconnectDelay (attempts : Nat) : Nat :=
  match attempts with
  | 0 => 2000
  | 1 => 5000
  | _ => 10000

/-- Embeds SocketClient.isConnected (types.ts lines 421-423). -/
def isConnected (c : SocketClient) : Bool :=
  c.connState == ConnState.connected && c.wsExists && c.wsOpen

/-- Embeds SocketClient.resumeConnectionWaiters (lines 288-299): the
waiters settle in insertion order, all resolved or all rejected. -/
def resumeEvents (ws : List Waiter) (success : Bool) : List ClientEv :=
  ws.map (fun w =>
    if success then ClientEv.waiterResolved w.wid else ClientEv.waiterRejected w.wid)

/-- Embeds SocketClient.scheduleReconnect (lines 304-360): refuse when a
timer is pending, reconnect disabled, no url, or offline; enter the
error state when the attempt counter has reached the maximum; otherwise
increment the counter and schedule with the backoff delay. -/
def scheduleReconnect (c : SocketClient) : SocketClient × List ClientEv :=
  if c.reconnectTimerSet then (c, [])
  else if !c.shouldReconnect then (c, [])
  else if c.currentUrl.isNone then (c, [])
  else if !c.online then (c, [])
  else if c.maxReconnectAttempts ≤ c.reconnectAttempts then
    ({ c with connState := ConnState.error }, [ClientEv.exhausted c.reconnectAttempts])
  else
    ({ c with reconnectAttempts := c.reconnectAttempts + 1,
              connState := ConnState.reconnecting, reconnectTimerSet := true },
     [ClientEv.scheduled c.reconnectAttempts (getReconnectDelay c.reconnectAttempts)])

/-- Embeds SocketClient.connect (lines 87-164) up to handler
installation: a no-op when a socket is open or connecting; error state
when offline; otherwise remember the url, enable reconnect, and create
the socket in the connecting state. -/
def connectFn (c : SocketClient) (url : String) : SocketClient :=
  if c.wsExists && c.wsOpen then c
  else if c.wsExists && !c.wsOpen then c
  else if !c.online then { c with connState := ConnState.error }
  else
    { c with currentUrl := some url, shouldReconnect := true,
             connState := ConnState.connecting, wsExists := true, wsOpen := false }

/-- Embeds ws.onopen (lines 116-122): connected state, counter reset to
0, all waiters resolved. -/
def openStep (c : SocketClient) : SocketClient × List ClientEv :=
  if c.wsExists && !c.wsOpen then
    ({ c with connState := ConnState.connected, wsOpen := true,
              reconnectAttempts := 0, waiters := [] },
     resumeEvents c.waiters true)
  else (c, [])

/-- Embeds ws.onclose (lines 143-157): disconnected state, socket
dropped, ALL waiters rejected unconditionally, and only then, when
reconnect is enabled and the close was not the normal code 1000, a
reconnect is scheduled. -/
def afterClose (c : SocketClient) : SocketClient :=
  { c with connState := ConnState.disconnected, wsExists := false,
           wsOpen := false, waiters := [] }

def closeStep (c : SocketClient) (code : Nat) : SocketClient × List ClientEv :=
  if c.wsExists then
    if c.shouldReconnect && !(code == 1000) then
      ((scheduleReconnect (afterClose c)).1,
       resumeEvents c.waiters false ++ (scheduleReconnect (afterClose c)).2)
    else (afterClose c, resumeEvents c.waiters false)
  else (c, [])

/-- Embeds SocketClient.disconnect (lines 169-190). -/
def disconnectStep (c : SocketClient) (clear : Bool) : SocketClient × List ClientEv :=
  ({ c with shouldReconnect := false, reconnectTimerSet := false,
            wsExists := false, wsOpen := false,
            connState := ConnState.disconnected, waiters := [],
            currentUrl := if clear then none else c.currentUrl },
   resumeEvents c.waiters false)

/-- Embeds the reconnect timer callback (lines 340-359). -/
def timerFireStep (c : SocketClient) : SocketClient × List ClientEv :=
  if c.reconnectTimerSet then
    if !c.online then
      ({ c with reconnectTimerSet := false, connState := ConnState.disconnected }, [])
    else if isConnected { c with reconnectTimerSet := false } then
      ({ c with reconnectTimerSet := false }, [])
    else if c.connState == ConnState.connecting then
      ({ c with reconnectTimerSet := false }, [])
    else
      match c.currentUrl with
      | some url => (connectFn { c with reconnectTimerSet := false } url, [])
      | none => ({ c with reconnectTimerSet := false }, [])
  else (c, [])

/-- Embeds a send that is not connected and goes through
waitForConnection (lines 195-283): fail fast without registering when
offline or without a url, otherwise ensure a connection attempt and
register a waiter with a fresh id. -/
def addWaiterStep (c : SocketClient) (now : Nat) : SocketClient × List ClientEv :=
  if isConnected c then (c, [])
  else if !c.online || c.currentUrl.isNone then (c, [])
  else
    match c.currentUrl with
    | some url =>
      if isConnected (connectFn c url) then (connectFn c url, [])
      else
        ({ connectFn c url with
            waiters := (connectFn c url).waiters ++
              [{ wid := (connectFn c url).nextWaiterId, timestamp := now }],
            nextWaiterId := (connectFn c url).nextWaiterId + 1 }, [])
    | none => (c, [])

/-- Embeds a waiter timeout firing (lines 253-259): reject and remove
only when the waiter is still registered. -/
def waiterTimeoutStep (c : SocketClient) (wid : Nat) : SocketClient × List ClientEv :=
  if c.waiters.any (fun w => w.wid == wid) then
    ({ c with waiters := c.waiters.filter (fun w => !(w.wid == wid)) },
     [ClientEv.waiterRejected wid])
  else (c, [])

/-- Embeds the network monitor change subscription (lines 72-79). -/
def netChangeStep (c : SocketClient) (isOnline : Bool) : SocketClient × List ClientEv :=
  if isOnline && !(isConnected { c with online := isOnline })
      && c.currentUrl.isSome then
    scheduleReconnect { c with online := isOnline }
  else ({ c with online := isOnline }, [])

inductive ClientOp
  | connect (url : String)
  | openEv
  | closeEv (code : Nat)
  | disconnect (clear : Bool)
  | timerFire
  | addWaiter (now : Nat)
  | waiterTimeout (wid : Nat)
  | netChange (isOnline : Bool)
  deriving DecidableEq, Repr

def clientStep (c : SocketClient) : ClientOp → SocketClient × List ClientEv
  | ClientOp.connect url => (connectFn c url, [])
  | ClientOp.openEv => openStep c
  | ClientOp.closeEv code => closeStep c code
  | ClientOp.disconnect clear => disconnectStep c clear
  | ClientOp.timerFire => timerFireStep c
  | ClientOp.addWaiter now => addWaiterStep c now
  | ClientOp.waiterTimeout wid => waiterTimeoutStep c wid
  | ClientOp.netChange b => netChangeStep c b

def runClient (c : SocketClient) : List ClientOp → SocketClient × List ClientEv
  | [] => (c, [])
  | op :: ops =>
    let r := clientStep c op
    let r' := runClient r.1 ops
    (r'.1, r.2 ++ r'.2)

/-- A fresh client with the configured defaults (part_008):
maxReconnectAttempts 6; the network monitor assumes online initially. -/
def initClient : SocketClient :=
  { wsExists := false, wsOpen := false, currentUrl := none,
    connState := ConnState.disconnected, reconnectAttempts := 0,
    maxReconnectAttempts := 6, reconnectTimerSet := false,
    shouldReconnect := true, waiters := [], nextWaiterId := 0, online := true }

def isConnectLike : ClientOp → Bool
  | ClientOp.connect _ => true
  | ClientOp.addWaiter _ => true
  | _ => false

def isWaiterEv : ClientEv → Bool
  | ClientEv.waiterResolved _ => true
  | ClientEv.waiterRejected _ => true
  | _ => false

theorem resumeEvents_waiter (ws : List Waiter) (b : Bool) :
    ∀ e ∈ resumeEvents ws b, isWaiterEv e = true := by
  intro e he
  rcases List.mem_map.1 he with ⟨w, _, heq⟩
  cases b
  · rw [← heq]
    rfl
  · rw [← heq]
    rfl

theorem resumeEvents_true (ws : List Waiter) :
    resumeEvents ws true = ws.map (fun w => ClientEv.waiterResolved w.wid) := rfl

theorem scheduleReconnect_waiters (c : SocketClient) :
    (scheduleReconnect c).1.waiters = c.waiters := by
  unfold scheduleReconnect
  repeat' split
  all_goals rfl

theorem scheduleReconnect_max (c : SocketClient) :
    (scheduleReconnect c).1.maxReconnectAttempts = c.maxReconnectAttempts := by
  unfold scheduleReconnect
  repeat' split
  all_goals rfl

theorem scheduleReconnect_wsExists (c : SocketClient) :
    (scheduleReconnect c).1.wsExists = c.wsExists := by
  unfold scheduleReconnect
  repeat' split
  all_goals rfl

theorem scheduleReconnect_nonwaiter (c : SocketClient) :
    ∀ e ∈ (scheduleReconnect c).2, isWaiterEv e = false := by
  intro e he
  unfold scheduleReconnect at he
  repeat' split at he
  all_goals simp at he
  · rw [he]
    rfl
  · rw [he]
    rfl

theorem scheduleReconnect_sched_mem (c : SocketClient) (n d : Nat)
    (h : ClientEv.scheduled n d ∈ (scheduleReconnect c).2) :
    n = c.reconnectAttempts ∧ d = getReconnectDelay n ∧
    n < c.maxReconnectAttempts := by
  unfold scheduleReconnect at h
  repeat' split at h
  all_goals simp at h
  rename_i hto hsr hurl hon hmax
  obtain ⟨hn, hd⟩ := h
  refine ⟨hn, ?_, ?_⟩
  · rw [hn, hd]
  · rw [hn]
    omega

theorem scheduleReconnect_exh_mem (c : SocketClient) (n : Nat)
    (h : ClientEv.exhausted n ∈ (scheduleReconnect c).2) :
    n = c.reconnectAttempts ∧ c.maxReconnectAttempts ≤ n := by
  unfold scheduleReconnect at h
  repeat' split at h
  all_goals simp at h
  rename_i hto hsr hurl hon hmax
  refine ⟨h, ?_⟩
  rw [h]
  exact hmax

theorem scheduleReconnect_att_le (c : SocketClient)
    (h : c.reconnectAttempts ≤ c.maxReconnectAttempts) :
    (scheduleReconnect c).1.reconnectAttempts
      ≤ (scheduleReconnect c).1.maxReconnectAttempts := by
  unfold scheduleReconnect
  repeat' split
  all_goals simp
  all_goals omega

theorem scheduleReconnect_exhausted_state (c : SocketClient)
    (hmax : c.maxReconnectAttempts ≤ c.reconnectAttempts) :
    (∀ n d, ¬ ClientEv.scheduled n d ∈ (scheduleReconnect c).2) ∧
    (scheduleReconnect c).1.reconnectAttempts = c.reconnectAttempts ∧
    (scheduleReconnect c).1.reconnectTimerSet = c.reconnectTimerSet := by
  unfold scheduleReconnect
  by_cases h1 : c.reconnectTimerSet = true
  · rw [if_pos h1]
    exact ⟨fun n d h => by simp at h, rfl, rfl⟩
  · rw [if_neg h1]
    by_cases h2 : (!c.shouldReconnect) = true
    · rw [if_pos h2]
      exact ⟨fun n d h => by simp at h, rfl, rfl⟩
    · rw [if_neg h2]
      by_cases h3 : c.currentUrl.isNone = true
      · rw [if_pos h3]
        exact ⟨fun n d h => by simp at h, rfl, rfl⟩
      · rw [if_neg h3]
        by_cases h4 : (!c.online) = true
        · rw [if_pos h4]
          exact ⟨fun n d h => by simp at h, rfl, rfl⟩
        · rw [if_neg h4]
          rw [if_pos hmax]
          exact ⟨fun n d h => by simp at h, rfl, rfl⟩
theorem connectFn_fields (c : SocketClient) (url : String) :
    (connectFn c url).reconnectAttempts = c.reconnectAttempts ∧
    (connectFn c url).maxReconnectAttempts = c.maxReconnectAttempts ∧
    (connectFn c url).waiters = c.waiters ∧
    (connectFn c url).nextWaiterId = c.nextWaiterId ∧
    (connectFn c url).reconnectTimerSet = c.reconnectTimerSet := by
  unfold connectFn
  repeat' split
  all_goals exact ⟨rfl, rfl, rfl, rfl, rfl⟩

theorem clientStep_max (c : SocketClient) (op : ClientOp) :
    (clientStep c op).1.maxReconnectAttempts = c.maxReconnectAttempts := by
  cases op with
  | connect url => exact (connectFn_fields c url).2.1
  | openEv =>
    show (openStep c).1.maxReconnectAttempts = _
    unfold openStep
    split
    · rfl
    · rfl
  | closeEv code =>
    show (closeStep c code).1.maxReconnectAttempts = _
    unfold closeStep
    split
    · split
      · exact (scheduleReconnect_max _).trans rfl
      · rfl
    · rfl
  | disconnect clear => rfl
  | timerFire =>
    show (timerFireStep c).1.maxReconnectAttempts = _
    unfold timerFireStep
    split
    · split
      · rfl
      · split
        · rfl
        · split
          · rfl
          · split
            · exact (connectFn_fields _ _).2.1.trans rfl
            · rfl
    · rfl
  | addWaiter now =>
    show (addWaiterStep c now).1.maxReconnectAttempts = _
    unfold addWaiterStep
    split
    · rfl
    · split
      · rfl
      · split
        · split
          · exact (connectFn_fields _ _).2.1
          · show (connectFn c _).maxReconnectAttempts = _
            exact (connectFn_fields _ _).2.1
        · rfl
  | waiterTimeout wid =>
    show (waiterTimeoutStep c wid).1.maxReconnectAttempts = _
    unfold waiterTimeoutStep
    split
    · rfl
    · rfl
  | netChange b =>
    show (netChangeStep c b).1.maxReconnectAttempts = _
    unfold netChangeStep
    split
    · exact (scheduleReconnect_max _).trans rfl
    · rfl
theorem clientStep_att_le (c : SocketClient) (op : ClientOp)
    (h : c.reconnectAttempts ≤ c.maxReconnectAttempts) :
    (clientStep c op).1.reconnectAttempts
      ≤ (clientStep c op).1.maxReconnectAttempts := by
  cases op with
  | connect url =>
    show (connectFn c url).reconnectAttempts ≤ (connectFn c url).maxReconnectAttempts
    rw [(connectFn_fields c url).1, (connectFn_fields c url).2.1]
    exact h
  | openEv =>
    show (openStep c).1.reconnectAttempts ≤ (openStep c).1.maxReconnectAttempts
    unfold openStep
    split
    · simp
    · exact h
  | closeEv code =>
    show (closeStep c code).1.reconnectAttempts ≤ (closeStep c code).1.maxReconnectAttempts
    unfold closeStep
    split
    · split
      · exact scheduleReconnect_att_le _ h
      · exact h
    · exact h
  | disconnect clear => exact h
  | timerFire =>
    show (timerFireStep c).1.reconnectAttempts ≤ (timerFireStep c).1.maxReconnectAttempts
    unfold timerFireStep
    split
    · split
      · exact h
      · split
        · exact h
        · split
          · exact h
          · split
            · show (connectFn _ _).reconnectAttempts ≤ (connectFn _ _).maxReconnectAttempts
              rw [(connectFn_fields _ _).1, (connectFn_fields _ _).2.1]
              exact h
            · exact h
    · exact h
  | addWaiter now =>
    show (addWaiterStep c now).1.reconnectAttempts ≤ (addWaiterStep c now).1.maxReconnectAttempts
    unfold addWaiterStep
    split
    · exact h
    · split
      · exact h
      · split
        · split
          · show (connectFn _ _).reconnectAttempts ≤ (connectFn _ _).maxReconnectAttempts
            rw [(connectFn_fields _ _).1, (connectFn_fields _ _).2.1]
            exact h
          · show (connectFn _ _).reconnectAttempts ≤ (connectFn _ _).maxReconnectAttempts
            rw [(connectFn_fields _ _).1, (connectFn_fields _ _).2.1]
            exact h
        · exact h
  | waiterTimeout wid =>
    show (waiterTimeoutStep c wid).1.reconnectAttempts
        ≤ (waiterTimeoutStep c wid).1.maxReconnectAttempts
    unfold waiterTimeoutStep
    split
    · exact h
    · exact h
  | netChange b =>
    show (netChangeStep c b).1.reconnectAttempts ≤ (netChangeStep c b).1.maxReconnectAttempts
    unfold netChangeStep
    split
    · exact scheduleReconnect_att_le _ h
    · exact h

theorem clientStep_sched_mem (c : SocketClient) (op : ClientOp) (n d : Nat)
    (h : ClientEv.scheduled n d ∈ (clientStep c op).2) :
    d = getReconnectDelay n ∧ n < c.maxReconnectAttempts := by
  cases op with
  | connect url => simp [clientStep] at h
  | openEv =>
    have h' : ClientEv.scheduled n d ∈ (openStep c).2 := h
    unfold openStep at h'
    split at h'
    · have := resumeEvents_waiter _ _ _ h'
      simp [isWaiterEv] at this
    · simp at h'
  | closeEv code =>
    have h' : ClientEv.scheduled n d ∈ (closeStep c code).2 := h
    unfold closeStep at h'
    split at h'
    · split at h'
      · rcases List.mem_append.1 h' with hw | hs
        · have := resumeEvents_waiter _ _ _ hw
          simp [isWaiterEv] at this
        · have := scheduleReconnect_sched_mem _ n d hs
          exact ⟨this.2.1, this.2.2⟩
      · have := resumeEvents_waiter _ _ _ h'
        simp [isWaiterEv] at this
    · simp at h'
  | disconnect clear =>
    have h' : ClientEv.scheduled n d ∈ (disconnectStep c clear).2 := h
    have := resumeEvents_waiter _ _ _ h'
    simp [isWaiterEv] at this
  | timerFire =>
    have h' : ClientEv.scheduled n d ∈ (timerFireStep c).2 := h
    unfold timerFireStep at h'
    split at h'
    · split at h'
      · simp at h'
      · split at h'
        · simp at h'
        · split at h'
          · simp at h'
          · split at h'
            · simp at h'
            · simp at h'
    · simp at h'
  | addWaiter now =>
    have h' : ClientEv.scheduled n d ∈ (addWaiterStep c now).2 := h
    unfold addWaiterStep at h'
    split at h'
    · simp at h'
    · split at h'
      · simp at h'
      · split at h'
        · split at h'
          · simp at h'
          · simp at h'
        · simp at h'
  | waiterTimeout wid =>
    have h' : ClientEv.scheduled n d ∈ (waiterTimeoutStep c wid).2 := h
    unfold waiterTimeoutStep at h'
    split at h'
    · simp at h'
    · simp at h'
  | netChange b =>
    have h' : ClientEv.scheduled n d ∈ (netChangeStep c b).2 := h
    unfold netChangeStep at h'
    split at h'
    · have := scheduleReconnect_sched_mem _ n d h'
      exact ⟨this.2.1, this.2.2⟩
    · simp at h'

theorem clientStep_exh_mem (c : SocketClient) (op : ClientOp) (n : Nat)
    (h : ClientEv.exhausted n ∈ (clientStep c op).2) :
    n = c.reconnectAttempts ∧ c.maxReconnectAttempts ≤ n := by
  cases op with
  | connect url => simp [clientStep] at h
  | openEv =>
    have h' : ClientEv.exhausted n ∈ (openStep c).2 := h
    unfold openStep at h'
    split at h'
    · have := resumeEvents_waiter _ _ _ h'
      simp [isWaiterEv] at this
    · simp at h'
  | closeEv code =>
    have h' : ClientEv.exhausted n ∈ (closeStep c code).2 := h
    unfold closeStep at h'
    split at h'
    · split at h'
      · rcases List.mem_append.1 h' with hw | hs
        · have := resumeEvents_waiter _ _ _ hw
          simp [isWaiterEv] at this
        · have h2 := scheduleReconnect_exh_mem _ n hs
          exact h2
      · have := resumeEvents_waiter _ _ _ h'
        simp [isWaiterEv] at this
    · simp at h'
  | disconnect clear =>
    have h' : ClientEv.exhausted n ∈ (disconnectStep c clear).2 := h
    have := resumeEvents_waiter _ _ _ h'
    simp [isWaiterEv] at this
  | timerFire =>
    have h' : ClientEv.exhausted n ∈ (timerFireStep c).2 := h
    unfold timerFireStep at h'
    split at h'
    · split at h'
      · simp at h'
      · split at h'
        · simp at h'
        · split at h'
          · simp at h'
          · split at h'
            · simp at h'
            · simp at h'
    · simp at h'
  | addWaiter now =>
    have h' : ClientEv.exhausted n ∈ (addWaiterStep c now).2 := h
    unfold addWaiterStep at h'
    split at h'
    · simp at h'
    · split at h'
      · simp at h'
      · split at h'
        · split at h'
          · simp at h'
          · simp at h'
        · simp at h'
  | waiterTimeout wid =>
    have h' : ClientEv.exhausted n ∈ (waiterTimeoutStep c wid).2 := h
    unfold waiterTimeoutStep at h'
    split at h'
    · simp at h'
    · simp at h'
  | netChange b =>
    have h' : ClientEv.exhausted n ∈ (netChangeStep c b).2 := h
    unfold netChangeStep at h'
    split at h'
    · have h2 := scheduleReconnect_exh_mem _ n h'
      exact h2
    · simp at h'
theorem clientStep_exhausted_frozen (c : SocketClient) (op : ClientOp)
    (hmax : c.maxReconnectAttempts ≤ c.reconnectAttempts)
    (hws : c.wsExists = false) (htimer : c.reconnectTimerSet = false)
    (hop : isConnectLike op = false) :
    (∀ n d, ¬ ClientEv.scheduled n d ∈ (clientStep c op).2) ∧
    (clientStep c op).1.reconnectAttempts = c.reconnectAttempts ∧
    (clientStep c op).1.maxReconnectAttempts = c.maxReconnectAttempts ∧
    (clientStep c op).1.wsExists = false ∧
    (clientStep c op).1.reconnectTimerSet = false := by
  cases op with
  | connect url => simp [isConnectLike] at hop
  | addWaiter now => simp [isConnectLike] at hop
  | openEv =>
    have hcond : (c.wsExists && !c.wsOpen) = false := by rw [hws]; rfl
    show (∀ n d, ¬ ClientEv.scheduled n d ∈ (openStep c).2) ∧
        (openStep c).1.reconnectAttempts = _ ∧ (openStep c).1.maxReconnectAttempts = _ ∧
        (openStep c).1.wsExists = false ∧ (openStep c).1.reconnectTimerSet = false
    unfold openStep
    rw [hcond]
    exact ⟨fun n d h => by simp at h, rfl, rfl, hws, htimer⟩
  | closeEv code =>
    show (∀ n d, ¬ ClientEv.scheduled n d ∈ (closeStep c code).2) ∧
        (closeStep c code).1.reconnectAttempts = _ ∧
        (closeStep c code).1.maxReconnectAttempts = _ ∧
        (closeStep c code).1.wsExists = false ∧
        (closeStep c code).1.reconnectTimerSet = false
    unfold closeStep
    rw [hws]
    rw [if_neg (by simp)]
    exact ⟨fun n d h => by simp at h, rfl, rfl, hws, htimer⟩
  | disconnect clear =>
    refine ⟨?_, rfl, rfl, rfl, rfl⟩
    intro n d h
    have h' : ClientEv.scheduled n d ∈ (disconnectStep c clear).2 := h
    have := resumeEvents_waiter _ _ _ h'
    simp [isWaiterEv] at this
  | timerFire =>
    show (∀ n d, ¬ ClientEv.scheduled n d ∈ (timerFireStep c).2) ∧
        (timerFireStep c).1.reconnectAttempts = _ ∧
        (timerFireStep c).1.maxReconnectAttempts = _ ∧
        (timerFireStep c).1.wsExists = false ∧
        (timerFireStep c).1.reconnectTimerSet = false
    unfold timerFireStep
    rw [htimer]
    rw [if_neg (by simp)]
    exact ⟨fun n d h => by simp at h, rfl, rfl, hws, htimer⟩
  | waiterTimeout wid =>
    show (∀ n d, ¬ ClientEv.scheduled n d ∈ (waiterTimeoutStep c wid).2) ∧
        (waiterTimeoutStep c wid).1.reconnectAttempts = _ ∧
        (waiterTimeoutStep c wid).1.maxReconnectAttempts = _ ∧
        (waiterTimeoutStep c wid).1.wsExists = false ∧
        (waiterTimeoutStep c wid).1.reconnectTimerSet = false
    unfold waiterTimeoutStep
    split
    · exact ⟨fun n d h => by simp at h, rfl, rfl, hws, htimer⟩
    · exact ⟨fun n d h => by simp at h, rfl, rfl, hws, htimer⟩
  | netChange b =>
    show (∀ n d, ¬ ClientEv.scheduled n d ∈ (netChangeStep c b).2) ∧
        (netChangeStep c b).1.reconnectAttempts = _ ∧
        (netChangeStep c b).1.maxReconnectAttempts = _ ∧
        (netChangeStep c b).1.wsExists = false ∧
        (netChangeStep c b).1.reconnectTimerSet = false
    unfold netChangeStep
    split
    · have hsub := scheduleReconnect_exhausted_state
        { c with online := b } (by exact hmax)
      refine ⟨hsub.1, hsub.2.1.trans rfl, (scheduleReconnect_max _).trans rfl, ?_, ?_⟩
      · exact (scheduleReconnect_wsExists _).trans hws
      · exact hsub.2.2.trans htimer
    · exact ⟨fun n d h => by simp at h, rfl, rfl, hws, htimer⟩
theorem getReconnectDelay_eq (n : Nat) :
    getReconnectDelay n = if n = 0 then 2000 else if n = 1 then 5000 else 10000 := by
  match n with
  | 0 => rfl
  | 1 => rfl
  | (k+2) => simp [getReconnectDelay]

theorem runClient_max (ops : List ClientOp) :
    ∀ c : SocketClient,
      (runClient c ops).1.maxReconnectAttempts = c.maxReconnectAttempts := by
  induction ops with
  | nil => intro c; rfl
  | cons op rest ih =>
    intro c
    show (runClient (clientStep c op).1 rest).1.maxReconnectAttempts = _
    rw [ih (clientStep c op).1, clientStep_max]

theorem runClient_sched (ops : List ClientOp) :
    ∀ (c : SocketClient) (n d : Nat),
      ClientEv.scheduled n d ∈ (runClient c ops).2 →
      d = getReconnectDelay n ∧ n < c.maxReconnectAttempts := by
  induction ops with
  | nil =>
    intro c n d h
    simp [runClient] at h
  | cons op rest ih =>
    intro c n d h
    have h' : ClientEv.scheduled n d ∈
        (clientStep c op).2 ++ (runClient (clientStep c op).1 rest).2 := h
    rcases List.mem_append.1 h' with h1 | h2
    · exact clientStep_sched_mem c op n d h1
    · have := ih (clientStep c op).1 n d h2
      rw [clientStep_max] at this
      exact this

theorem runClient_exh (ops : List ClientOp) :
    ∀ (c : SocketClient), c.reconnectAttempts ≤ c.maxReconnectAttempts →
    ∀ n : Nat, ClientEv.exhausted n ∈ (runClient c ops).2 →
      n = c.maxReconnectAttempts := by
  induction ops with
  | nil =>
    intro c _ n h
    simp [runClient] at h
  | cons op rest ih =>
    intro c hle n h
    have h' : ClientEv.exhausted n ∈
        (clientStep c op).2 ++ (runClient (clientStep c op).1 rest).2 := h
    rcases List.mem_append.1 h' with h1 | h2
    · have := clientStep_exh_mem c op n h1
      omega
    · have := ih (clientStep c op).1 (clientStep_att_le c op hle) n h2
      rw [clientStep_max] at this
      exact this

theorem runClient_frozen (ops : List ClientOp) :
    ∀ c : SocketClient,
      c.maxReconnectAttempts ≤ c.reconnectAttempts → c.wsExists = false →
      c.reconnectTimerSet = false →
      (∀ op ∈ ops, isConnectLike op = false) →
      ∀ n d, ¬ ClientEv.scheduled n d ∈ (runClient c ops).2 := by
  induction ops with
  | nil =>
    intro c _ _ _ _ n d h
    simp [runClient] at h
  | cons op rest ih =>
    intro c hmax hws htimer hops n d h
    have hstep := clientStep_exhausted_frozen c op hmax hws htimer
      (hops op (by simp))
    have h' : ClientEv.scheduled n d ∈
        (clientStep c op).2 ++ (runClient (clientStep c op).1 rest).2 := h
    rcases List.mem_append.1 h' with h1 | h2
    · exact hstep.1 n d h1
    · exact ih (clientStep c op).1
        (by rw [hstep.2.1, hstep.2.2.1]; exact hmax)
        hstep.2.2.2.1 hstep.2.2.2.2
        (fun op' hop' => hops op' (by simp [hop'])) n d h2
/-- C7 counterexample: a waiter is pending during a connection attempt;
the socket closes abnormally (code 1006) with reconnect enabled and the
network online, so a reconnect is scheduled (the client ends up in the
reconnecting state) - yet the very same close rejected the pending
waiter, contradicting the claim that a transient close that leads to
reconnecting does not reject pending waiters. -/
theorem close_rejects_waiters_even_when_reconnecting :
    (runClient initClient
        [ClientOp.connect "u", ClientOp.addWaiter 0, ClientOp.closeEv 1006]).2
      = [ClientEv.waiterRejected 0, ClientEv.scheduled 0 2000] ∧
    (runClient initClient
        [ClientOp.connect "u", ClientOp.addWaiter 0, ClientOp.closeEv 1006]).1.connState
      = ConnState.reconnecting := by
  refine ⟨by decide, by decide⟩

/-- C7 amended: waiters are resolved, in insertion order, when the
socket opens; they are rejected, in insertion order, on EVERY close of
the socket (whether or not a reconnect is then scheduled), on explicit
disconnect, and individually on their own timeout. -/
theorem waiter_settlement_rules (c : SocketClient) :
    (c.wsExists = true → c.wsOpen = false →
      openStep c
        = ({ c with
              connState := ConnState.connected, wsOpen := true,
              reconnectAttempts := 0, waiters := [] },
           resumeEvents c.waiters true)) ∧
    (∀ code : Nat, c.wsExists = true →
      (closeStep c code).1.waiters = [] ∧
      (closeStep c code).2 = resumeEvents c.waiters false ++
        (if c.shouldReconnect && !(code == 1000)
          then (scheduleReconnect (afterClose c)).2 else []) ∧
      (∀ e ∈ (scheduleReconnect (afterClose c)).2, isWaiterEv e = false)) ∧
    (∀ clear : Bool,
      (disconnectStep c clear).1.waiters = [] ∧
      (disconnectStep c clear).2 = resumeEvents c.waiters false) ∧
    (∀ wid : Nat, c.waiters.any (fun w => w.wid == wid) = true →
      (waiterTimeoutStep c wid).2 = [ClientEv.waiterRejected wid]) ∧
    (resumeEvents c.waiters true
      = c.waiters.map (fun w => ClientEv.waiterResolved w.wid)) ∧
    (resumeEvents c.waiters false
      = c.waiters.map (fun w => ClientEv.waiterRejected w.wid)) := by
  refine ⟨?_, ?_, ?_, ?_, rfl, rfl⟩
  · intro hws hwo
    have hcond : (c.wsExists && !c.wsOpen) = true := by rw [hws, hwo]; rfl
    unfold openStep
    rw [if_pos hcond]
  · intro code hws
    unfold closeStep
    rw [if_pos hws]
    by_cases hcr : (c.shouldReconnect && !(code == 1000)) = true
    · rw [if_pos hcr, if_pos hcr]
      exact ⟨(scheduleReconnect_waiters _).trans rfl, rfl,
        fun e he => scheduleReconnect_nonwaiter _ e he⟩
    · rw [if_neg hcr, if_neg hcr]
      exact ⟨rfl, (List.append_nil _).symm,
        fun e he => scheduleReconnect_nonwaiter _ e he⟩
  · intro clear
    exact ⟨rfl, rfl⟩
  · intro wid hmem
    unfold waiterTimeoutStep
    rw [if_pos hmem]

/-- Witness for waiter_settlement_rules: a client with two registered
waiters, closed abnormally and disconnected. -/
theorem waiter_settlement_rules_witness :
    (closeStep (runClient initClient
        [ClientOp.connect "u", ClientOp.addWaiter 0, ClientOp.addWaiter 1]).1
        1006).1.waiters = [] ∧
    (disconnectStep (runClient initClient
        [ClientOp.connect "u", ClientOp.addWaiter 0, ClientOp.addWaiter 1]).1
        true).2
      = resumeEvents (runClient initClient
          [ClientOp.connect "u", ClientOp.addWaiter 0, ClientOp.addWaiter 1]).1.waiters
          false :=
  ⟨((waiter_settlement_rules _).2.1 1006 (by decide)).1,
   ((waiter_settlement_rules _).2.2.1 true).2⟩

/-- The reconnect-storm operation sequence: one explicit connect, then
seven abnormal closes with the reconnect timer firing in between. -/
def stormOps : List ClientOp :=
  [ClientOp.connect "u", ClientOp.closeEv 1006,
   ClientOp.timerFire, ClientOp.closeEv 1006,
   ClientOp.timerFire, ClientOp.closeEv 1006,
   ClientOp.timerFire, ClientOp.closeEv 1006,
   ClientOp.timerFire, ClientOp.closeEv 1006,
   ClientOp.timerFire, ClientOp.closeEv 1006,
   ClientOp.timerFire, ClientOp.closeEv 1006]

/-- C8 counterexample: after the reconnect storm the client enters the
error state by exhaustion with the attempt counter equal to the maximum
(6 attempts occurred), not strictly fewer than the maximum. -/
theorem error_entry_at_max_attempts :
    (runClient initClient stormOps).1.connState = ConnState.error ∧
    ClientEv.exhausted 6 ∈ (runClient initClient stormOps).2 ∧
    ¬ (6 < 6) := by
  refine ⟨by decide, by decide, by decide⟩

/-- C8 amended: reconnect delays follow 2 s, 5 s, then 10 s, and every
scheduled attempt is made with the counter strictly below the maximum 6;
the counter resets to 0 on a successful open; entering the error state
by exhaustion happens exactly when the counter has reached the maximum
(6 attempts have occurred, not strictly fewer); and in the exhausted
error state (no socket, no pending timer) no reconnect is scheduled by
any operation other than an explicit connect or a send that triggers
one. -/
theorem reconnect_policy :
    (∀ (ops : List ClientOp) (n d : Nat),
      ClientEv.scheduled n d ∈ (runClient initClient ops).2 →
      d = (if n = 0 then 2000 else if n = 1 then 5000 else 10000) ∧ n < 6) ∧
    (∀ c : SocketClient, c.wsExists = true → c.wsOpen = false →
      (openStep c).1.reconnectAttempts = 0 ∧
      (openStep c).1.connState = ConnState.connected) ∧
    (∀ (ops : List ClientOp) (n : Nat),
      ClientEv.exhausted n ∈ (runClient initClient ops).2 → n = 6) ∧
    (∀ (c : SocketClient) (ops : List ClientOp),
      c.maxReconnectAttempts ≤ c.reconnectAttempts → c.wsExists = false →
      c.reconnectTimerSet = false → (∀ op ∈ ops, isConnectLike op = false) →
      ∀ n d, ¬ ClientEv.scheduled n d ∈ (runClient c ops).2) := by
  refine ⟨?_, ?_, ?_, ?_⟩
  · intro ops n d h
    have := runClient_sched ops initClient n d h
    rw [getReconnectDelay_eq] at this
    exact this
  · intro c hws hwo
    have hcond : (c.wsExists && !c.wsOpen) = true := by rw [hws, hwo]; rfl
    unfold openStep
    rw [if_pos hcond]
    exact ⟨rfl, rfl⟩
  · intro ops n h
    exact runClient_exh ops initClient (by decide) n h
  · intro c ops
    exact runClient_frozen ops c

/-- Witness for reconnect_policy at the reconnect storm. -/
theorem reconnect_policy_witness :
    (5000 = (if (1 : Nat) = 0 then 2000 else if (1 : Nat) = 1 then 5000 else 10000)
        ∧ 1 < 6) ∧
    ((openStep (runClient initClient [ClientOp.connect "u"]).1).1.reconnectAttempts = 0
        ∧ (openStep (runClient initClient
            [ClientOp.connect "u"]).1).1.connState = ConnState.connected) ∧
    (6 = 6) ∧
    ¬ ClientEv.scheduled 0 2000 ∈
      (runClient (runClient initClient stormOps).1
        [ClientOp.closeEv 1006, ClientOp.netChange true]).2 :=
  ⟨reconnect_policy.1 stormOps 1 5000 (by decide),
   reconnect_policy.2.1 (runClient initClient [ClientOp.connect "u"]).1
     (by decide) (by decide),
   reconnect_policy.2.2.1 stormOps 6 (by decide),
   reconnect_policy.2.2.2 (runClient initClient stormOps).1
     [ClientOp.closeEv 1006, ClientOp.netChange true]
     (by decide) (by decide) (by decide) (by decide) 0 2000⟩
end Vantum
